import Mathlib

/-!
Verification of the QuickStack tower-stability engine.

The definitions below are a shallow embedding of the game's grid model,
tower-section lock, collapse compaction, void detection and stability
scoring (sources: utils/boardHelpers.js, utils/lock.js, utils/collision.js,
stability/voidDetection.js, stability/supportStructure.js,
stability/instabilityCore.js, utils/instabilityHelpers.js).

Modelling conventions:
* JS arrays of rows become `List (List Nat)`; reads through `List.getD`
  return `0` for out-of-range indices, matching JS `undefined` being
  falsy in the occupancy tests the code performs.
* JS floating-point numbers become `ℚ` (the code only adds, subtracts,
  multiplies, divides, compares, and takes min/max).
* The queue-based breadth-first flood fills (`floodFillAccessible`,
  `identifyVoidCluster`) are modelled as bounded saturation of the same
  one-step neighbour relation: starting from the seed set, repeatedly add
  every valid unvisited 4-neighbour until a fixed point is reached.  The
  fuel passed is larger than the number of grid cells, so the saturation
  provably reaches the same set of cells the BFS marks.
* Mutable matrices that are written cell-by-cell (`cellStability`,
  `visited`) become functions `Pos → ℚ` / `Finset Pos` updated pointwise;
  every write in the source depends only on the board and the cell's own
  previous value, so sequential mutation agrees with the pointwise update.
-/

set_option allowUnsafeReducibility true
attribute [semireducible] Rat.add Rat.sub Rat.mul Rat.inv Rat.ofScientific

namespace QuickStack

/-- Columns: `GUTTER_WIDTH = 4` (utils/constants.js). -/
def GUTTER_WIDTH : ℕ := 4

/-- Playable tower width, `TOWER_WIDTH = 10`. -/
def TOWER_WIDTH : ℕ := 10

/-- Full board width: tower plus two gutters = 18. -/
def BOARD_WIDTH : ℕ := TOWER_WIDTH + 2 * GUTTER_WIDTH

/-- Buffer rows above the visible area. -/
def BUFFER_ROWS : ℕ := 4

/-- Visible rows. -/
def VISIBLE_ROWS : ℕ := 30

/-- Capacity of the history archive, `HISTORY_ROWS = 30`. -/
def HISTORY_ROWS : ℕ := 30

/-- Total board height: 4 + 30 + 30 = 64. -/
def BOARD_HEIGHT : ℕ := BUFFER_ROWS + VISIBLE_ROWS + HISTORY_ROWS

/-- Row where the history region begins: 64 - 30 = 34. -/
def CUT_OFF_ROW : ℕ := BOARD_HEIGHT - HISTORY_ROWS

/-- A grid row, as in the JS `Array(width)` of 0/1 cells. -/
abbrev Row := List ℕ

/-- A board: list of rows, `board[y][x]`. -/
abbrev Board := List Row

/-- A cell coordinate `(x, y)`. -/
abbrev Pos := ℕ × ℕ

/-- Read `board[y][x]`, with 0 (falsy `undefined`) for out-of-range reads. -/
def cellVal (b : Board) (x y : ℕ) : ℕ :=
  (b.getD y []).getD x 0

/-- Width used by the void-cluster analysis: `board[0].length`. -/
def widthOf (b : Board) : ℕ := (b.getD 0 []).length

/-- True when `x` lies in the tower zone `[GUTTER_WIDTH, GUTTER_WIDTH+TOWER_WIDTH)`. -/
def towerX (x : ℕ) : Prop := GUTTER_WIDTH ≤ x ∧ x < GUTTER_WIDTH + TOWER_WIDTH

instance (x : ℕ) : Decidable (towerX x) := by unfold towerX; infer_instance

/-- Tower-zone x coordinates in scan order, `x = 4 .. 13`. -/
def towerXs : List ℕ := List.range' GUTTER_WIDTH TOWER_WIDTH

/-- The helper `findTopRow` of utils/boardHelpers.js: first row index whose
row contains a cell equal to 1 (any column, gutters included), else -1. -/
def findTopRowAux : Board → ℕ → Int
  | [], _ => -1
  | r :: rs, y => if r.any (fun c => c == 1) then (y : Int) else findTopRowAux rs (y + 1)

/-- Topmost occupied row of a board, -1 when none (utils/boardHelpers.js). -/
def findTopRow (b : Board) : Int := findTopRowAux b 0

/-- The helper `copyBoardSection(board, startRow, endRow)`: deep-copies rows
`y ∈ [startRow, endRow)` that exist on the board. -/
def copyBoardSection (b : Board) (startRow endRow : ℕ) : List Row :=
  ((List.range' startRow (endRow - startRow)).filter (fun y => y < b.length)).map
    (fun y => b.getD y [])

/-- A zero-filled board of `rows` rows and `cols` columns (`createEmptyBoard`). -/
def createEmptyBoard (rows : ℕ) (cols : ℕ := BOARD_WIDTH) : Board :=
  List.replicate rows (List.replicate cols 0)

/-- Severity tier of a void cluster (stability/voidDetection.js). -/
inductive VoidType where
  | critical
  | severe
  | moderate
  | minor
deriving DecidableEq, Repr

/-- Record produced by `analyzeVoidCluster`: bounding box, size, depth and
severity tier of a connected component of enclosed empty cells. -/
structure VoidCluster where
  cells : Finset Pos
  minX : ℕ
  maxX : ℕ
  minY : ℕ
  maxY : ℕ
  size : ℕ
  depth : ℕ
  vtype : VoidType
deriving DecidableEq

/-- The mutable game scene, restricted to the fields the stability core
reads and writes (`scene` object threaded through the JS modules). -/
structure Scene where
  board : Board
  historyGrid : Board
  lockReady : Bool
  chargeLevel : ℚ
  historicalStability : Option ℚ
  externalInstability : ℚ
  cellStability : Pos → ℚ
  rowStability : ℕ → Option ℚ
  voidClusters : List VoidCluster
  rawSectionStability : ℚ

/-- The occupancy query `isCellOccupied(scene, x, y)` of utils/boardHelpers.js.
Out-of-range x or negative y report occupied; `y ≥ CUT_OFF_ROW` routes to the
history grid (empty result when past its end); otherwise the active board is
read.  Total by construction: every branch returns a `Bool`. -/
def isCellOccupied (s : Scene) (x y : Int) : Bool :=
  if x < 0 ∨ (BOARD_WIDTH : Int) ≤ x ∨ y < 0 then
    true
  else if (CUT_OFF_ROW : Int) ≤ y then
    let historyY := y - (BUFFER_ROWS + VISIBLE_ROWS : ℕ)
    if 0 ≤ historyY ∧ historyY < (s.historyGrid.length : Int) then
      (s.historyGrid.getD historyY.toNat []).getD x.toNat 0 ≠ 0
    else
      false
  else if y < (s.board.length : Int) then
    (s.board.getD y.toNat []).getD x.toNat 0 ≠ 0
  else
    false

/-- The piece-level collision test `checkCollisionAt(scene, x, y, shape)` of
utils/collision.js: some filled shape cell is out of the board rectangle or
lands on an occupied cell. -/
def checkCollisionAt (s : Scene) (x y : Int) (shape : List (List ℕ)) : Bool :=
  (List.range shape.length).any (fun row =>
    (List.range ((shape.getD row []).length)).any (fun col =>
      (shape.getD row []).getD col 0 ≠ 0 ∧
        (let newX := x + (col : Int)
         let newY := y + (row : Int)
         newX < 0 ∨ (BOARD_WIDTH : Int) ≤ newX ∨ newY < 0 ∨
           (BOARD_HEIGHT : Int) ≤ newY ∨ isCellOccupied s newX newY)))

/-- The guarded `lockTowerSection(scene)` of utils/lock.js (visual bookkeeping
omitted): requires `lockReady` and a non-empty board; archives rows
`[topRow+1, CUT_OFF_ROW)` in front of the history grid truncated to
`HISTORY_ROWS`; clears the board and re-seats the old top row as the new
foundation at `board.length - HISTORY_ROWS - 1`; resets charge and readiness. -/
def lockTowerSection (s : Scene) : Scene :=
  if ¬ s.lockReady then s
  else
    match findTopRow s.board with
    | Int.negSucc _ => s
    | Int.ofNat topRow =>
      let newHistoryRows := copyBoardSection s.board (topRow + 1) CUT_OFF_ROW
      let historyGrid := (newHistoryRows ++ s.historyGrid).take HISTORY_ROWS
      let topRowData := s.board.getD topRow []
      let newBaseY := s.board.length - HISTORY_ROWS - 1
      let board := (List.range s.board.length).map (fun y =>
        if y = newBaseY then
          (List.range BOARD_WIDTH).map (fun x => topRowData.getD x 0)
        else
          List.replicate BOARD_WIDTH 0)
      { s with
          board := board
          historyGrid := historyGrid
          chargeLevel := 0
          lockReady := false }

/-- The four neighbours pushed by the BFS queues of
`floodFillAccessible` and `identifyVoidCluster` (right, left, down, up).
Natural subtraction truncates at 0, which is harmless: the truncated
neighbour equals the cell itself and is already visited. -/
def nbrs (p : Pos) : List Pos :=
  [(p.1 + 1, p.2), (p.1 - 1, p.2), (p.1, p.2 + 1), (p.1, p.2 - 1)]

/-- One saturation round: add every valid neighbour of the current set. -/
def satStep (P : Pos → Bool) (s : Finset Pos) : Finset Pos :=
  s ∪ s.biUnion (fun p => ((nbrs p).filter P).toFinset)

/-- Saturation loop with fuel, stopping at the first fixed point. -/
def satGo (P : Pos → Bool) : ℕ → Finset Pos → Finset Pos
  | 0, s => s
  | n + 1, s => if satStep P s = s then s else satGo P n (satStep P s)

/-- Saturated reachable set of the one-step relation from the given seeds;
models the queue-based BFS of the JS flood fills. -/
def saturate (P : Pos → Bool) (init : List Pos) (fuel : ℕ) : Finset Pos :=
  satGo P fuel (init.filter P).toFinset

/-- Validity test of `floodFillAccessible`: tower-zone column, row inside
the board, not a filled cell. -/
def accP (b : Board) (p : Pos) : Bool :=
  decide (GUTTER_WIDTH ≤ p.1 ∧ p.1 < GUTTER_WIDTH + TOWER_WIDTH ∧ p.2 < b.length) &&
    !(cellVal b p.1 p.2 == 1)

/-- Validity test of `identifyVoidCluster`: tower-zone column, row strictly
above the cutoff, not a filled cell. -/
def clP (b : Board) (cutOff : ℕ) (p : Pos) : Bool :=
  decide (GUTTER_WIDTH ≤ p.1 ∧ p.1 < GUTTER_WIDTH + TOWER_WIDTH ∧ p.2 < cutOff) &&
    !(cellVal b p.1 p.2 == 1)

/-- Fuel larger than the number of cells the accessibility fill can visit
(written `1 + _` so the saturation loop only unfolds on concrete boards). -/
def accFuel (b : Board) : ℕ := 1 + BOARD_WIDTH * b.length

/-- Fuel larger than the number of cells a cluster fill can visit
(written `1 + _` so the saturation loop only unfolds on concrete cutoffs). -/
def clFuel (cutOff : ℕ) : ℕ := 1 + BOARD_WIDTH * cutOff

/-- The accessibility pass `findAccessibleCells(board, topRow)`: flood fill
from every empty (`!board[topRow][x]`, i.e. zero) tower cell of the topmost
occupied row. -/
def findAccessibleCells (b : Board) (topRow : ℕ) : Finset Pos :=
  saturate (accP b) ((towerXs.filter (fun x => cellVal b x topRow = 0)).map
    (fun x => (x, topRow))) (accFuel b)

/-- The test `y > 0 && board[y-1][x] === 1` used to recognise capped cells. -/
def hasBlockAbove (b : Board) (p : Pos) : Bool :=
  decide (0 < p.2) && (cellVal b p.1 (p.2 - 1) == 1)

/-- The cluster growth `identifyVoidCluster(board, visited, x, y, cutOffRow)`:
connected empty tower cells above the cutoff, skipping already-visited
cells. -/
def identifyVoidCluster (b : Board) (visited : Finset Pos) (p : Pos) (cutOff : ℕ) :
    Finset Pos :=
  saturate (fun q => clP b cutOff q && decide (q ∉ visited)) [p] (clFuel cutOff)

/-- Connected component of empty tower cells above the cutoff containing `p`:
the cluster the BFS would grow with nothing visited yet. -/
def voidComponent (b : Board) (cutOff : ℕ) (p : Pos) : Finset Pos :=
  identifyVoidCluster b ∅ p cutOff

/-- The eight directions examined by `analyzeVoidCluster` and
`propagateVoidEffects`. -/
def dirs8 : List (Int × Int) :=
  [(-1, -1), (0, -1), (1, -1), (-1, 0), (1, 0), (-1, 1), (0, 1), (1, 1)]

/-- In-bounds test of `analyzeVoidCluster`'s neighbour loop: tower-zone
column and row inside the whole board. -/
def nbrValid (b : Board) (p : Pos) (d : Int × Int) : Bool :=
  let nx := (p.1 : Int) + d.1
  let ny := (p.2 : Int) + d.2
  decide ((GUTTER_WIDTH : Int) ≤ nx ∧ nx < (GUTTER_WIDTH + TOWER_WIDTH : ℕ) ∧
    0 ≤ ny ∧ ny < (b.length : Int))

/-- Filled test for a surrounding position in `analyzeVoidCluster`. -/
def nbrFilled (b : Board) (p : Pos) (d : Int × Int) : Bool :=
  cellVal b ((p.1 : Int) + d.1).toNat ((p.2 : Int) + d.2).toNat == 1

/-- The cluster analysis `analyzeVoidCluster(board, cluster)`: bounding box
(folds starting from width/height/0 as in the JS min/max accumulators),
size, depth, and the severity tier derived from the enclosure ratio with
thresholds 0.8 / 0.6 / 0.4. -/
def analyzeVoidCluster (b : Board) (cl : Finset Pos) : VoidCluster :=
  let minX := Finset.fold min (widthOf b) Prod.fst cl
  let maxX := Finset.fold max 0 Prod.fst cl
  let minY := Finset.fold min b.length Prod.snd cl
  let maxY := Finset.fold max 0 Prod.snd cl
  let size := cl.card
  let depth := maxY - minY + 1
  let possible := ∑ p in cl, (dirs8.filter (fun d => nbrValid b p d)).length
  let blocks := ∑ p in cl, (dirs8.filter (fun d => nbrValid b p d && nbrFilled b p d)).length
  let enclosure : ℚ := (blocks : ℚ) / (possible : ℚ)
  let vtype : VoidType :=
    if 0.8 < enclosure then .critical
    else if 0.6 < enclosure then .severe
    else if 0.4 < enclosure then .moderate
    else .minor
  ⟨cl, minX, maxX, minY, maxY, size, depth, vtype⟩

/-- Depth penalty `Math.min(0.4, depth * 0.1)` of the void assignment. -/
def depthPenaltyOf (depth : ℕ) : ℚ := min 0.4 ((depth : ℚ) * 0.1)

/-- Size penalty `Math.min(0.3, size * 0.05)` of the void assignment. -/
def sizePenaltyOf (size : ℕ) : ℚ := min 0.3 ((size : ℚ) * 0.05)

/-- Stability value written into every cell of a void cluster, by severity
tier (`detectVoids`, switch on `clusterInfo.type`). -/
def voidPenalty (info : VoidCluster) : ℚ :=
  match info.vtype with
  | .critical => -0.7 - depthPenaltyOf info.depth - sizePenaltyOf info.size
  | .severe => -0.5 - depthPenaltyOf info.depth - sizePenaltyOf info.size
  | .moderate => -0.3 - depthPenaltyOf info.depth
  | .minor => -0.2

/-- Base effect strength of `propagateVoidEffects`, by severity tier. -/
def baseEffect : VoidType → ℚ
  | .critical => 0.4
  | .severe => 0.3
  | .moderate => 0.2
  | .minor => 0.1

/-- The secondary pass `propagateVoidEffects(board, cellStability, cluster,
cutOffRow)`: every filled cell 8-adjacent to a (non-history) cluster cell is
penalised, strongest above the cluster's bounding box, weakest below, with
the result clamped at 0 from below. -/
def propagateVoidEffects (b : Board) (S : Pos → ℚ) (info : VoidCluster)
    (cutOff : ℕ) : Pos → ℚ :=
  let eff := min 0.5 (baseEffect info.vtype + (info.size : ℚ) * 0.01)
  let affected : Finset Pos :=
    (info.cells.filter (fun p => p.2 < cutOff)).biUnion (fun p =>
      (dirs8.filterMap (fun d =>
        let nx := (p.1 : Int) + d.1
        let ny := (p.2 : Int) + d.2
        if (GUTTER_WIDTH : Int) ≤ nx ∧ nx < (GUTTER_WIDTH + TOWER_WIDTH : ℕ) ∧
            0 ≤ ny ∧ ny < (cutOff : Int) ∧ cellVal b nx.toNat ny.toNat = 1 then
          some (nx.toNat, ny.toNat)
        else none)).toFinset)
  fun q =>
    if q ∈ affected then
      if q.2 < info.minY then max 0 (S q - eff * 1.5)
      else if info.maxY < q.2 then max 0 (S q - eff * 0.5)
      else max 0 (S q - eff)
    else S q

/-- State threaded through the first pass of `detectVoids`: the visited
matrix, the cell-stability matrix, and the clusters recorded so far. -/
structure DetectState where
  visited : Finset Pos
  stab : Pos → ℚ
  clusters : List VoidCluster

/-- One iteration of the scan loop of `detectVoids` at cell `p`: skip
visited or filled cells; mark accessible or uncapped cells visited; grow a
cluster otherwise, keep it only when capped, and assign its penalty to all
member cells. -/
def scanStep (b : Board) (accSet : Finset Pos) (cutOff : ℕ)
    (st : DetectState) (p : Pos) : DetectState :=
  if p ∈ st.visited ∨ cellVal b p.1 p.2 = 1 then st
  else if p ∈ accSet ∨ ¬ hasBlockAbove b p then
    { st with visited := insert p st.visited }
  else if (¬ ∃ q ∈ identifyVoidCluster b st.visited p cutOff, hasBlockAbove b q) ∨
      identifyVoidCluster b st.visited p cutOff = ∅ then
    { st with visited := st.visited ∪ identifyVoidCluster b st.visited p cutOff }
  else
    { visited := st.visited ∪ identifyVoidCluster b st.visited p cutOff
      stab := fun q =>
        if q ∈ identifyVoidCluster b st.visited p cutOff then
          voidPenalty (analyzeVoidCluster b (identifyVoidCluster b st.visited p cutOff))
        else st.stab q
      clusters := st.clusters ++
        [analyzeVoidCluster b (identifyVoidCluster b st.visited p cutOff)] }

/-- Cells visited by the scan loop of `detectVoids`, in its row-major order
(`y` from `topRow` to `cutOffRow - 1`, `x` across the tower zone). -/
def scanList (topRow cutOff : ℕ) : List Pos :=
  (List.range' topRow (cutOff - topRow)).flatMap (fun y => towerXs.map (fun x => (x, y)))

/-- The void detector `detectVoids(board, topRow, initialCellStability,
cutOffRow)`: accessibility fill, row-major cluster scan, then propagation of
cluster effects onto surrounding filled cells. -/
def detectVoids (b : Board) (topRow : ℕ) (initStab : Pos → ℚ) (cutOff : ℕ) :
    (Pos → ℚ) × List VoidCluster :=
  let accSet := findAccessibleCells b topRow
  let st := (scanList topRow cutOff).foldl (scanStep b accSet cutOff)
    ⟨∅, initStab, []⟩
  (st.clusters.foldl (fun S info => propagateVoidEffects b S info cutOff) st.stab,
    st.clusters)

/-- Number of filled cells of column `x` strictly above the bottom row,
i.e. in rows `0 .. board.length - 2` (the rows scanned by the compaction
loop of `compactTowerAfterCollapse`). -/
def columnFill (b : Board) (x : ℕ) : ℕ :=
  ((List.range (b.length - 1)).filter (fun y => cellVal b x y = 1)).length

/-- The compaction step `compactTowerAfterCollapse` of
utils/instabilityHelpers.js: the bottom row `board.length - 1` is copied
unchanged, and each column's filled cells from rows `0 .. board.length - 2`
are stacked downward starting at row `board.length - 2` (the bottom-to-top
scan writes the column's `k` filled cells into the `k` rows directly above
the bottom row). -/
def compactTowerAfterCollapse (b : Board) : Board :=
  (List.range b.length).map (fun y =>
    (List.range BOARD_WIDTH).map (fun x =>
      if y + 1 = b.length then cellVal b x y
      else if b.length - 1 - columnFill b x ≤ y then 1
      else 0))

/-- Weight for lateral support, `NEIGHBOR_WEIGHT = 0.15`. -/
def NEIGHBOR_WEIGHT : ℚ := 0.15

/-- Penalty for unsupported blocks, `OVERHANG_PENALTY = 0.35`. -/
def OVERHANG_PENALTY : ℚ := 0.35

/-- Penalty factor for thin rows, `THIN_TOWER_PENALTY = 0.4`. -/
def THIN_TOWER_PENALTY : ℚ := 0.4

/-- Penalty factor for imbalanced rows, `BALANCE_PENALTY = 0.3`. -/
def BALANCE_PENALTY : ℚ := 0.3

/-- Minimum row width considered stable, `MIN_STABLE_WIDTH = 6`. -/
def MIN_STABLE_WIDTH : ℕ := 6

/-- Row-stability threshold below which a row is critical. -/
def CRITICAL_STABILITY : ℚ := 0.4

/-- Number of consecutive critical rows that triggers the extra penalty. -/
def CONSECUTIVE_CRITICAL_LIMIT : ℕ := 2

/-- Maximum instability, `MAX_INSTABILITY = 100`. -/
def MAX_INSTABILITY : ℚ := 100

/-- Lateral-neighbour and edge bonus chain of the overhang pass at a single
cell: each present neighbour adds `NEIGHBOR_WEIGHT`, an edge column adds
`NEIGHBOR_WEIGHT * 0.3`, all capped at 1. -/
def overhangBonuses (b : Board) (x y : ℕ) (v : ℚ) : ℚ :=
  let v2 := if GUTTER_WIDTH < x ∧ cellVal b (x - 1) y = 1 then
      min 1 (v + NEIGHBOR_WEIGHT) else v
  let v3 := if x < GUTTER_WIDTH + TOWER_WIDTH - 1 ∧ cellVal b (x + 1) y = 1 then
      min 1 (v2 + NEIGHBOR_WEIGHT) else v2
  if x = GUTTER_WIDTH ∨ x = GUTTER_WIDTH + TOWER_WIDTH - 1 then
    min 1 (v3 + NEIGHBOR_WEIGHT * 0.3)
  else v3

/-- Overhang-penalty part of the pass at a single cell: full penalty with no
support below, reduced penalty with only diagonal support, no penalty with
direct support; clamped at -1. -/
def overhangPenalised (b : Board) (x y : ℕ) (v : ℚ) : ℚ :=
  if cellVal b x (y + 1) = 1 then v
  else if (GUTTER_WIDTH < x ∧ cellVal b (x - 1) (y + 1) = 1) ∨
      (x < GUTTER_WIDTH + TOWER_WIDTH - 1 ∧ cellVal b (x + 1) (y + 1) = 1) then
    max (-1) (v - OVERHANG_PENALTY * 0.7)
  else
    max (-1) (v - OVERHANG_PENALTY * 2)

/-- The support pass `applyOverhangPenalties(board, cellStability,
cutOffRow)` of stability/supportStructure.js, written pointwise: every
write of the JS loop reads only the board and the cell's own current
value.  Rows up to `cutOffRow - 2` take the overhang penalty then the
bonus chain; the bottom active row `cutOffRow - 1` is forced to 1 on
filled cells. -/
def applyOverhangPenalties (b : Board) (S : Pos → ℚ) (cutOff : ℕ) : Pos → ℚ :=
  fun p =>
    let x := p.1
    let y := p.2
    if towerX x ∧ cellVal b x y = 1 then
      if y + 1 < cutOff then
        overhangBonuses b x y (overhangPenalised b x y (S p))
      else if y + 1 = cutOff then 1
      else S p
    else S p

/-- Number of filled tower-zone cells of row `y`. -/
def rowWidthOf (b : Board) (y : ℕ) : ℕ :=
  (towerXs.filter (fun x => cellVal b x y = 1)).length

/-- Sum of the x coordinates of the filled tower-zone cells of row `y`. -/
def rowWeightedSum (b : Board) (y : ℕ) : ℕ :=
  (towerXs.filter (fun x => cellVal b x y = 1)).sum

/-- The pass `applyThinWidthPenalties(board, cellStability, cutOffRow)`:
every filled cell of a non-empty active row narrower than
`MIN_STABLE_WIDTH` takes a penalty proportional to the missing width,
clamped at -1. -/
def applyThinWidthPenalties (b : Board) (S : Pos → ℚ) (cutOff : ℕ) : Pos → ℚ :=
  fun p =>
    let w := rowWidthOf b p.2
    if p.2 < cutOff ∧ towerX p.1 ∧ cellVal b p.1 p.2 = 1 ∧ 0 < w ∧ w < MIN_STABLE_WIDTH then
      max (-1) (S p -
        ((MIN_STABLE_WIDTH : ℚ) - (w : ℚ)) / (MIN_STABLE_WIDTH : ℚ) *
          THIN_TOWER_PENALTY * 1.5)
    else S p

/-- The pass `applyBalancePenalties(board, cellStability, cutOffRow)`: rows
with at least two blocks whose centre of mass deviates from the tower
midpoint by more than 30% of the half-width penalise each of their filled
cells, weighted by the cell's own distance from the centre. -/
def applyBalancePenalties (b : Board) (S : Pos → ℚ) (cutOff : ℕ) : Pos → ℚ :=
  fun p =>
    let tm := rowWidthOf b p.2
    let idealCenter : ℚ := (GUTTER_WIDTH : ℚ) + (TOWER_WIDTH : ℚ) / 2
    let maxOffset : ℚ := (TOWER_WIDTH : ℚ) / 2
    let com : ℚ := (rowWeightedSum b p.2 : ℚ) / (tm : ℚ)
    let imbalance := |com - idealCenter| / maxOffset
    if p.2 < cutOff ∧ towerX p.1 ∧ cellVal b p.1 p.2 = 1 ∧ 1 < tm ∧ 0.3 < imbalance then
      let dist := |(p.1 : ℚ) - idealCenter| / maxOffset
      max (-1) (S p - (imbalance - 0.3) * BALANCE_PENALTY * (0.5 + dist * 0.5))
    else S p

/-- Row-emptiness helper `hasFilledCells(board, y)`: some truthy tower cell. -/
def hasFilledCells (b : Board) (y : ℕ) : Bool :=
  towerXs.any (fun x => cellVal b x y ≠ 0)

/-- Count of non-empty active rows, `countFilledRows(board, topRow, cutOffRow)`. -/
def countFilledRows (b : Board) (topRow cutOff : ℕ) : ℕ :=
  ((List.range' topRow (cutOff - topRow)).filter (fun y => hasFilledCells b y)).length

/-- The row aggregate `calculateRowStability(cellStability, board, y)`:
average over filled cells and negative (void) cells of the tower zone;
empty rows score 1; complete rows get a 1.5 bonus; the result caps at 1. -/
def calculateRowStability (S : Pos → ℚ) (b : Board) (y : ℕ) : ℚ :=
  let acc := towerXs.foldl
    (fun (a : ℕ × ℕ × ℚ) x =>
      if cellVal b x y ≠ 0 then (a.1 + 1, a.2.1, a.2.2 + S (x, y))
      else if S (x, y) < 0 then (a.1, a.2.1 + 1, a.2.2 + S (x, y))
      else a)
    (0, 0, 0)
  if acc.1 + acc.2.1 = 0 then 1
  else
    let avg := acc.2.2 / ((acc.1 : ℚ) + (acc.2.1 : ℚ))
    if acc.1 = TOWER_WIDTH then min 1 (avg * 1.5) else min 1 avg

/-- Accumulator of the row walk in `calculateRawSectionStability`. -/
structure RawState where
  worst : ℚ
  consec : ℕ
  current : ℚ
  negCount : ℕ

/-- One row of the walk in `calculateRawSectionStability`: skipped rows are
missing, zero, or score 1 while being empty; critical rows extend the
consecutive run and may halve the tracked worst score; the worst row score
is always tracked. -/
def rawStep (rowStabs : ℕ → Option ℚ) (b : Board) (st : RawState) (y : ℕ) :
    RawState :=
  match rowStabs y with
  | none => st
  | some rs =>
    if rs = 0 ∨ (rs = 1 ∧ ¬ hasFilledCells b y) then st
    else
      let st1 :=
        if rs < CRITICAL_STABILITY then
          let consec := st.consec + 1
          let current := min st.current rs
          let worst :=
            if CONSECUTIVE_CRITICAL_LIMIT ≤ consec then
              min st.worst (current * 0.5)
            else st.worst
          let negCount := if rs < 0 then st.negCount + 1 else st.negCount
          RawState.mk worst consec current negCount
        else RawState.mk st.worst 0 1 st.negCount
      { st1 with worst := min st1.worst rs }

/-- The aggregate `calculateRawSectionStability(rowStabilities, board,
topRow, cutOffRow)`: worst-row tracking with the consecutive-critical
penalty, a flat 0.2 penalty per negative row, a height penalty past ten
filled rows, scaled to a percentage capped at 100. -/
def calculateRawSectionStability (rowStabs : ℕ → Option ℚ) (b : Board)
    (topRow cutOff : ℕ) : ℚ :=
  let st := (List.range' topRow (cutOff - topRow)).foldl (rawStep rowStabs b)
    (RawState.mk 1 0 1 0)
  let integrity0 := st.worst * 0.6 + 0.4
  let integrity1 := integrity0 - (st.negCount : ℚ) * 0.2
  let towerHeight := countFilledRows b topRow cutOff
  let integrity := integrity1 - max 0 ((towerHeight : ℚ) - 10) * 0.02
  min 100 (integrity * 100)

/-- Cell-stability matrix after the full recompute of `calculateStability`
with topmost row `topRow`: all-ones seed, void detection, then the
overhang, thin-width and balance passes. -/
def pipelineMatrix (b : Board) (topRow : ℕ) : Pos → ℚ :=
  let cutOff := b.length - HISTORY_ROWS
  let seeded := (detectVoids b topRow (fun _ => 1) cutOff).1
  applyBalancePenalties b
    (applyThinWidthPenalties b (applyOverhangPenalties b seeded cutOff) cutOff)
    cutOff

/-- Void clusters produced by the recompute with topmost row `topRow`. -/
def pipelineClusters (b : Board) (topRow : ℕ) : List VoidCluster :=
  (detectVoids b topRow (fun _ => 1) (b.length - HISTORY_ROWS)).2

/-- Row-stability array of the recompute: computed for active rows,
missing (`null`) at and past the cutoff. -/
def pipelineRowStabs (b : Board) (topRow : ℕ) : ℕ → Option ℚ :=
  fun y =>
    if y < b.length - HISTORY_ROWS then
      some (calculateRowStability (pipelineMatrix b topRow) b y)
    else none

/-- Raw section stability of the recompute with topmost row `topRow`. -/
def pipelineRaw (b : Board) (topRow : ℕ) : ℚ :=
  calculateRawSectionStability (pipelineRowStabs b topRow) b topRow
    (b.length - HISTORY_ROWS)

/-- Full cell-stability recompute of a board, with the topmost row the
pipeline itself computes (`calculateStability` before aggregation). -/
def stabilityPassMatrix (b : Board) : Pos → ℚ :=
  pipelineMatrix b (findTopRow b).toNat

/-- The aggregator `calculateStability(scene)` of
stability/instabilityCore.js: early 100 on an empty board, the full matrix
pipeline, row and section aggregation, the 70/30 historical blend with the
low-history penalty, and the external-instability subtraction floored at 0.
Returns the updated scene (derived fields only) and the final value. -/
def calculateStability (s : Scene) : Scene × ℚ :=
  match findTopRow s.board with
  | Int.negSucc _ => (s, 100)
  | Int.ofNat topRow =>
    let b := s.board
    let S := pipelineMatrix b topRow
    let rowStabs := pipelineRowStabs b topRow
    let raw := pipelineRaw b topRow
    let tower0 :=
      match s.historicalStability with
      | none => raw
      | some h =>
        let t := h * 0.7 + raw * 0.3
        if h < 50 then t - (50 - h) * 0.5 else t
    let tower := max 0 (tower0 - s.externalInstability)
    ({ s with
        voidClusters := pipelineClusters b topRow
        rawSectionStability := raw
        cellStability := S
        rowStability := rowStabs }, tower)

/-- Write a single cell of a board (`scene.board[y][x] = v`). -/
def setCell (b : Board) (x y v : ℕ) : Board :=
  b.set y ((b.getD y []).set x v)

/-- An all-empty 18-wide row. -/
def emptyRow : Row := List.replicate BOARD_WIDTH 0

/-- A row with the whole tower zone filled and empty gutters. -/
def towerFullRow : Row := [0, 0, 0, 0, 1, 1, 1, 1, 1, 1, 1, 1, 1, 1, 0, 0, 0, 0]

/-- Scene with the given board, history, lock flag, historical stability and
external instability; derived fields start at their defaults. -/
def mkScene (b h : Board) (lockReady : Bool) (hist : Option ℚ) (ext : ℚ) : Scene :=
  ⟨b, h, lockReady, 0, hist, ext, fun _ => 1, fun _ => none, [], 0⟩

/-- Standard 64-row board holding only a full foundation row at 33. -/
def bFoundation : Board :=
  List.replicate 33 emptyRow ++ [towerFullRow] ++ List.replicate 30 emptyRow

/-- Board whose only filled cell sits in the left gutter of row 0. -/
def bGutterOnly : Board := [1 :: List.replicate 17 0]

/-- Standard 64-row board whose only filled cell is the gutter cell (0,0). -/
def bTopGutter : Board := (1 :: List.replicate 17 0) :: List.replicate 63 emptyRow

/-- Standard 64-row board holding only a full row at 10. -/
def bRowTen : Board :=
  List.replicate 10 emptyRow ++ [towerFullRow] ++ List.replicate 53 emptyRow

/-- 36-row board with an L-shaped enclosed pocket: rows 2 and 5 full, rows 3
and 4 full except column 5.  The pocket cells are (5,3) (capped) and (5,4)
(not capped); the cutoff for this board length is row 6. -/
def bPocket : Board :=
  [emptyRow, emptyRow, towerFullRow,
    [0, 0, 0, 0, 1, 0, 1, 1, 1, 1, 1, 1, 1, 1, 0, 0, 0, 0],
    [0, 0, 0, 0, 1, 0, 1, 1, 1, 1, 1, 1, 1, 1, 0, 0, 0, 0],
    towerFullRow] ++ List.replicate 30 emptyRow

/-- Rows of the 38-row support-removal board: rows 0-3 full except the
column-12 channel, row 4 holds the capped cell (8,4), row 5 holds the
enclosed void (7,5), its plug (8,5) and the diagonal support (9,5), row 6
leaves the corridor 8-13 open, row 7 is the foundation. -/
def rowChannel : Row := [0, 0, 0, 0, 1, 1, 1, 1, 1, 1, 1, 1, 0, 1, 0, 0, 0, 0]

/-- Row 4 of the support-removal board: columns 4-8 filled. -/
def rowFour : Row := [0, 0, 0, 0, 1, 1, 1, 1, 1, 0, 0, 0, 0, 0, 0, 0, 0, 0]

/-- Row 5 with the plug present: columns 4-6, 8, 9 filled, void at 7. -/
def rowFivePlugged : Row := [0, 0, 0, 0, 1, 1, 1, 0, 1, 1, 0, 0, 0, 0, 0, 0, 0, 0]

/-- Row 5 with the plug removed: columns 4-6, 9 filled. -/
def rowFiveOpen : Row := [0, 0, 0, 0, 1, 1, 1, 0, 0, 1, 0, 0, 0, 0, 0, 0, 0, 0]

/-- Row 6 of the support-removal board: columns 4-7 filled, corridor open. -/
def rowSix : Row := [0, 0, 0, 0, 1, 1, 1, 1, 0, 0, 0, 0, 0, 0, 0, 0, 0, 0]

/-- Support-removal board with the plug (8,5) present: the void (7,5) is
enclosed and its cluster penalises the capped cell (8,4). -/
def bPlugged : Board :=
  [rowChannel, rowChannel, rowChannel, rowChannel, rowFour, rowFivePlugged,
    rowSix, towerFullRow] ++ List.replicate 30 emptyRow

/-- The same board with the support cell (8,5) removed: the void becomes
reachable through the corridor and the channel, so no cluster remains. -/
def bOpen : Board :=
  [rowChannel, rowChannel, rowChannel, rowChannel, rowFour, rowFiveOpen,
    rowSix, towerFullRow] ++ List.replicate 30 emptyRow

/-- Scene with an entirely empty standard board and history. -/
def sceneEmpty : Scene :=
  mkScene (createEmptyBoard BOARD_HEIGHT) (createEmptyBoard HISTORY_ROWS) false none 0

/-- Lock-ready scene whose board has a single gutter block at (0,0). -/
def sceneGutterTop : Scene :=
  mkScene bTopGutter (createEmptyBoard HISTORY_ROWS) true none 0

/-- Lock-ready scene whose board has a full row at 10. -/
def sceneRowTen : Scene :=
  mkScene bRowTen (createEmptyBoard HISTORY_ROWS) true none 0

/-- Scene with the foundation board, historical stability 80 and external
instability 5. -/
def sceneBlend : Scene :=
  mkScene bFoundation (createEmptyBoard HISTORY_ROWS) false (some 80) 5

/-- Row whose only filled cell is at column 5. -/
def rowX5 : Row := [0, 0, 0, 0, 0, 1, 0, 0, 0, 0, 0, 0, 0, 0, 0, 0, 0, 0]

/-- Three-row board with cells (5,0), (5,1), (5,2) filled. -/
def bColumnFive : Board := [rowX5, rowX5, rowX5]

/-- One-step adjacency of the flood fills: `q` is among the four queued
neighbours of `p`. -/
def Adj (p q : Pos) : Prop := q ∈ nbrs p

/-- Adjacency restricted to cells the flood fill may traverse. -/
def AdjP (P : Pos → Bool) (p q : Pos) : Prop :=
  P p = true ∧ P q = true ∧ Adj p q

/-- Reachability through valid cells: reflexive-transitive closure of the
one-step relation the BFS queues explore. -/
def ReachP (P : Pos → Bool) : Pos → Pos → Prop :=
  Relation.ReflTransGen (AdjP P)

/-- The connected empty component of `p` contains a capped cell: the
condition under which the scan records `p`'s component as a void cluster. -/
def compCap (b : Board) (cutOff : ℕ) (p : Pos) : Prop :=
  ∃ q ∈ voidComponent b cutOff p, hasBlockAbove b q = true

instance (b : Board) (cutOff : ℕ) (p : Pos) : Decidable (compCap b cutOff p) := by
  unfold compCap; infer_instance

/-- Row-major key of a scan position: strictly increasing along the scan. -/
def posKey (p : Pos) : ℕ := BOARD_WIDTH * p.2 + p.1

/-- Invariant of the `detectVoids` scan loop after processing the prefix
`Q` of the scan list: visited cells are valid empty cells; an accessible or
capless-component cell is visited exactly when scanned, keeping stability
1; a cell of an unreachable capped component is visited exactly when some
member of its component has been scanned, in which case its stability has
been set negative, and keeps stability 1 otherwise; non-valid cells are
untouched. -/
def scanInv (b : Board) (topRow cutOff : ℕ) (Q : List Pos) (st : DetectState) :
    Prop :=
  (∀ q ∈ st.visited, clP b cutOff q = true) ∧
  (∀ p : Pos, clP b cutOff p = true →
    ((p ∈ findAccessibleCells b topRow ∨ ¬ compCap b cutOff p) →
      ((p ∈ st.visited ↔ p ∈ Q) ∧ st.stab p = 1)) ∧
    ((p ∉ findAccessibleCells b topRow ∧ compCap b cutOff p) →
      ((p ∈ st.visited ↔ ∃ q ∈ Q, q ∈ voidComponent b cutOff p) ∧
       ((∃ q ∈ Q, q ∈ voidComponent b cutOff p) → st.stab p < 0) ∧
       ((¬ ∃ q ∈ Q, q ∈ voidComponent b cutOff p) → st.stab p = 1)))) ∧
  (∀ p : Pos, clP b cutOff p = false → st.stab p = 1 ∧ p ∉ st.visited)

set_option maxRecDepth 100000

/-- C1: on the standard board whose only content is a full foundation row at
`CUT_OFF_ROW - 1 = 33`, the compaction step clears that row and moves its
filled cells to row 62, at and past the cutoff row.  The code preserves the
last board row (63) instead of the foundation row the lock establishes at
`board.length - HISTORY_ROWS - 1`, contradicting its own comment
"Preserve the bottom row (foundation)". -/
theorem compactTower_foundation_bug :
    cellVal bFoundation 4 (CUT_OFF_ROW - 1) = 1 ∧
    (compactTowerAfterCollapse bFoundation).getD (CUT_OFF_ROW - 1) [] ≠
      bFoundation.getD (CUT_OFF_ROW - 1) [] ∧
    cellVal (compactTowerAfterCollapse bFoundation) 4 62 = 1 ∧
    CUT_OFF_ROW ≤ 62 := by decide

/-- C10: `calculateStability` never mutates the occupancy grids: the board
and the history grid of the returned scene are those of the input scene;
only derived fields (cell stability, row stability, void clusters, raw
section stability) are replaced. -/
theorem calculateStability_preserves_board (s : Scene) :
    (calculateStability s).1.board = s.board ∧
    (calculateStability s).1.historyGrid = s.historyGrid := by
  unfold calculateStability
  cases findTopRow s.board <;> simp

/-- C5 (amended): the occupancy query is total and reports occupied for
`x < 0`, `x ≥ BOARD_WIDTH` or `y < 0`; but for in-range `x` and `y` at or
past the bottom of the board (with the history grid at its capacity bound)
it reports the cell as FREE, because the history lookup runs past the end
of the archive and falls through to `false`. -/
theorem isCellOccupied_bounds (s : Scene) (x y : Int) :
    ((x < 0 ∨ (BOARD_WIDTH : Int) ≤ x ∨ y < 0) → isCellOccupied s x y = true) ∧
    (0 ≤ x → x < (BOARD_WIDTH : Int) → s.historyGrid.length ≤ HISTORY_ROWS →
      (BOARD_HEIGHT : Int) ≤ y → isCellOccupied s x y = false) := by
  constructor
  · intro hoob
    unfold isCellOccupied
    rw [if_pos hoob]
  · intro hx0 hx1 hlen hy
    have hw : (BOARD_WIDTH : Int) = 18 := by decide
    have hh : (BOARD_HEIGHT : Int) = 64 := by decide
    have hc : (CUT_OFF_ROW : Int) = 34 := by decide
    have hbv : ((BUFFER_ROWS + VISIBLE_ROWS : ℕ) : Int) = 34 := by decide
    have hlen30 : (s.historyGrid.length : Int) ≤ 30 := by
      have : (HISTORY_ROWS : Int) = 30 := by decide
      omega
    unfold isCellOccupied
    rw [if_neg (by rw [hw]; rw [hh] at hy; omega)]
    rw [if_pos (by rw [hc]; rw [hh] at hy; omega)]
    rw [if_neg (by rw [hbv]; rw [hh] at hy; push_neg; intro _; omega)]

/-- C5 witness: concrete instances of both halves of the amended claim. -/
theorem isCellOccupied_bounds_witness :
    isCellOccupied sceneEmpty (-1) 5 = true ∧ isCellOccupied sceneEmpty 4 64 = false :=
  ⟨(isCellOccupied_bounds sceneEmpty (-1) 5).1 (by decide),
   (isCellOccupied_bounds sceneEmpty 4 64).2 (by decide) (by decide) (by decide)
     (by decide)⟩

/-- C5 counterexample: y = 64 is at the bottom of the standard 64-row board,
yet the occupancy query reports the cell as free, not occupied as the claim
states. -/
theorem isCellOccupied_bottom_counterexample :
    (BOARD_HEIGHT : Int) ≤ 64 ∧ isCellOccupied sceneEmpty 4 64 = false := by decide

/-- C4: on a non-empty board with a defined historical stability `h`, the
aggregator applies the weighted blend `0.7 * h + 0.3 * section` with the
extra penalty `(50 - h) * 0.5` when `h < 50` (the second of the two
documented rules), then subtracts the external instability as the final
step, flooring the result at 0. -/
theorem calculateStability_blend_final (s : Scene) (t : ℕ) (h : ℚ)
    (htop : findTopRow s.board = (t : Int)) (hh : s.historicalStability = some h) :
    (calculateStability s).2 =
      max 0 ((h * 0.7 + pipelineRaw s.board t * 0.3 -
        (if h < 50 then (50 - h) * 0.5 else 0)) - s.externalInstability) := by
  unfold calculateStability
  rw [htop, hh]
  by_cases h50 : h < 50 <;> simp [h50]

/-- C4 witness: the blend equation at a concrete foundation-only scene with
historical stability 80 and external instability 5. -/
theorem calculateStability_blend_final_witness :
    (calculateStability sceneBlend).2 =
      max 0 ((80 * 0.7 + pipelineRaw sceneBlend.board 33 * 0.3 -
        (if (80 : ℚ) < 50 then (50 - 80) * 0.5 else 0)) -
          sceneBlend.externalInstability) :=
  calculateStability_blend_final sceneBlend 33 80 (by decide) rfl

/-- Helper: `findTopRowAux` returns -1 when no row holds a 1. -/
theorem findTopRowAux_neg (b : Board) (k : ℕ)
    (h : ∀ r ∈ b, r.any (fun c => c == 1) = false) : findTopRowAux b k = -1 := by
  induction b generalizing k with
  | nil => rfl
  | cons r rs ih =>
    unfold findTopRowAux
    rw [h r (by simp)]
    exact ih (k + 1) (fun r' hr' => h r' (by simp [hr']))

/-- Helper: `findTopRowAux` finds the first row holding a 1, offset by the
starting index. -/
theorem findTopRowAux_found (b : Board) (k y : ℕ) (hy : y < b.length)
    (h1 : (b.getD y []).any (fun c => c == 1) = true)
    (hmin : ∀ z < y, (b.getD z []).any (fun c => c == 1) = false) :
    findTopRowAux b k = ((k + y : ℕ) : Int) := by
  induction b generalizing k y with
  | nil => simp at hy
  | cons r rs ih =>
    unfold findTopRowAux
    cases y with
    | zero =>
      simp only [List.getD_cons_zero] at h1
      rw [h1]
      simp
    | succ y' =>
      have h0 : r.any (fun c => c == 1) = false := by
        have := hmin 0 (Nat.succ_pos y')
        simpa using this
      rw [h0]
      simp only [Bool.false_eq_true, if_false]
      have := ih (k + 1) y' (by simpa using hy) (by simpa using h1)
        (fun z hz => by simpa using hmin (z + 1) (by omega))
      rw [this]
      congr 1
      omega

/-- C8 (amended): `findTopRow` returns the first row index, scanning from
row 0, whose row contains a cell equal to 1 in ANY column (gutters
included), and -1 when no row does; a row filled only in the gutters is
still reported. -/
theorem findTopRow_first_filled_row (b : Board) :
    ((∀ r ∈ b, r.any (fun c => c == 1) = false) → findTopRow b = -1) ∧
    (∀ y : ℕ, y < b.length → (b.getD y []).any (fun c => c == 1) = true →
      (∀ z < y, (b.getD z []).any (fun c => c == 1) = false) →
      findTopRow b = (y : Int)) := by
  constructor
  · intro h
    exact findTopRowAux_neg b 0 h
  · intro y hy h1 hmin
    have := findTopRowAux_found b 0 y hy h1 hmin
    simpa using this

/-- C8 witness: the gutter-only board's first row is reported as row 0. -/
theorem findTopRow_first_filled_row_witness :
    findTopRow bGutterOnly = ((0 : ℕ) : Int) :=
  (findTopRow_first_filled_row bGutterOnly).2 0 (by decide) (by decide)
    (fun z hz => absurd hz (Nat.not_lt_zero z))

/-- C8 counterexample: the board whose only filled cell is a gutter cell at
(0,0) has no filled tower-zone cell anywhere, yet `findTopRow` reports row
0 instead of the sentinel -1 the claim requires. -/
theorem findTopRow_gutter_counterexample :
    findTopRow bGutterOnly = 0 ∧ findTopRow bGutterOnly ≠ -1 ∧
    (∀ y < bGutterOnly.length, ∀ x < BOARD_WIDTH, towerX x →
      cellVal bGutterOnly x y ≠ 1) := by decide

/-- Helper: indexing the archive `(new ++ old).take cap`. -/
theorem take_append_index (l1 l2 : List Row) (cap i : ℕ) :
    ((l1 ++ l2).take cap)[i]? =
      if i < cap then
        (if i < l1.length then l1[i]? else l2[i - l1.length]?)
      else none := by
  rw [List.getElem?_take]
  by_cases hc : i < cap
  · rw [if_pos hc, if_pos hc]
    by_cases h1 : i < l1.length
    · rw [if_pos h1, List.getElem?_append_left h1]
    · rw [if_neg h1, List.getElem?_append_right (by omega)]
  · rw [if_neg hc, if_neg hc]

/-- C7: the archive never exceeds `HISTORY_ROWS` across lock operations
(a lock preserves the capacity bound, and no other operation writes the
archive), and when a lock fires the archive is exactly the newly archived
rows first, followed by the previous archive shifted back, truncated at
capacity — so the oldest rows are the ones evicted on overflow. -/
theorem lockTowerSection_history_capacity (s : Scene)
    (hlen : s.historyGrid.length ≤ HISTORY_ROWS) :
    (lockTowerSection s).historyGrid.length ≤ HISTORY_ROWS ∧
    (∀ t : ℕ, s.lockReady = true → findTopRow s.board = (t : Int) →
      ∀ i : ℕ,
        (lockTowerSection s).historyGrid[i]? =
          if i < HISTORY_ROWS then
            (if i < (copyBoardSection s.board (t + 1) CUT_OFF_ROW).length then
              (copyBoardSection s.board (t + 1) CUT_OFF_ROW)[i]?
            else s.historyGrid[i - (copyBoardSection s.board (t + 1) CUT_OFF_ROW).length]?)
          else none) := by
  constructor
  · unfold lockTowerSection
    by_cases hr : s.lockReady
    · simp only [hr, not_true, if_false]
      cases htr : findTopRow s.board with
      | ofNat t => simp
      | negSucc t => exact hlen
    · simp only [hr, not_false_iff, if_true]
      exact hlen
  · intro t hready htop i
    unfold lockTowerSection
    simp only [hready, not_true, if_false, htop]
    exact take_append_index _ _ _ _

/-- C7 witness: capacity bound after a lock on a concrete lock-ready scene. -/
theorem lockTowerSection_history_capacity_witness :
    (lockTowerSection sceneRowTen).historyGrid.length ≤ HISTORY_ROWS :=
  (lockTowerSection_history_capacity sceneRowTen (by decide)).1

/-- Helper: element access into `List.range'`. -/
theorem getElem?_range'_of_lt (s n i : ℕ) (h : i < n) :
    (List.range' s n)[i]? = some (s + i) := by
  rw [List.getElem?_eq_getElem (by simpa using h)]
  simp [List.getElem_range']

/-- Helper: when the requested range lies inside the board,
`copyBoardSection` keeps every row of the range. -/
theorem copyBoardSection_of_le (b : Board) (s e : ℕ) (he : e ≤ b.length) :
    copyBoardSection b s e = (List.range' s (e - s)).map (fun y => b.getD y []) := by
  unfold copyBoardSection
  congr 1
  apply List.filter_eq_self.mpr
  intro y hy
  have := List.mem_range'_1.mp hy
  simpa using by omega

/-- Helper: length of an in-bounds `copyBoardSection`. -/
theorem copyBoardSection_length (b : Board) (s e : ℕ) (he : e ≤ b.length) :
    (copyBoardSection b s e).length = e - s := by
  rw [copyBoardSection_of_le b s e he]
  simp

/-- Helper: rows copied by an in-bounds `copyBoardSection`, by index. -/
theorem copyBoardSection_getElem? (b : Board) (s e i : ℕ) (he : e ≤ b.length)
    (hi : i < e - s) :
    (copyBoardSection b s e)[i]? = some (b.getD (s + i) []) := by
  rw [copyBoardSection_of_le b s e he, List.getElem?_map,
    getElem?_range'_of_lt s (e - s) i hi]
  rfl

/-- Helper: `getD` on a mapped range. -/
theorem getD_map_range (n : ℕ) (f : ℕ → Row) (y : ℕ) (h : y < n) :
    ((List.range n).map f).getD y [] = f y := by
  rw [List.getD_eq_getElem?_getD, List.getElem?_map, List.getElem?_range h]
  rfl

/-- Helper: reading every position of a row through `getD` rebuilds the row. -/
theorem map_range_getD_self (r : Row) :
    (List.range r.length).map (fun x => r.getD x 0) = r := by
  apply List.ext_getElem
  · simp
  · intro i h1 h2
    simp [List.getElem?_eq_getElem h2]

/-- C3 (amended): on a standard-height lock-ready board with topmost row
`t ≥ 3` (so that the archived section fits the `HISTORY_ROWS` capacity),
the archive's first `CUT_OFF_ROW - (t+1)` rows equal, in order, the
pre-lock board rows `t+1 .. CUT_OFF_ROW - 1`; the new board's foundation
row `CUT_OFF_ROW - 1` equals the pre-lock row `t`; and every other active
row of the new board is empty.  For `t < 3` the claim fails (see the
counterexample): the section is longer than the archive capacity. -/
theorem lockTowerSection_archival_correct (s : Scene) (t : ℕ)
    (hready : s.lockReady = true) (htop : findTopRow s.board = (t : Int))
    (hlen : s.board.length = BOARD_HEIGHT)
    (hrow : (s.board.getD t []).length = BOARD_WIDTH) (ht : 3 ≤ t) :
    (∀ i < CUT_OFF_ROW - (t + 1),
      (lockTowerSection s).historyGrid[i]? = some (s.board.getD (t + 1 + i) [])) ∧
    (lockTowerSection s).board.getD (CUT_OFF_ROW - 1) [] = s.board.getD t [] ∧
    (∀ y < BOARD_HEIGHT, y ≠ CUT_OFF_ROW - 1 →
      (lockTowerSection s).board.getD y [] = List.replicate BOARD_WIDTH 0) := by
  have hc : CUT_OFF_ROW = 34 := by decide
  have hbh : BOARD_HEIGHT = 64 := by decide
  have hh30 : HISTORY_ROWS = 30 := by decide
  have hcl : CUT_OFF_ROW ≤ s.board.length := by omega
  have hnl : (copyBoardSection s.board (t + 1) CUT_OFF_ROW).length =
      CUT_OFF_ROW - (t + 1) := copyBoardSection_length _ _ _ hcl
  unfold lockTowerSection
  simp only [hready, not_true, if_false, htop]
  refine ⟨?_, ?_, ?_⟩
  · intro i hi
    rw [take_append_index, if_pos (by omega), if_pos (by omega),
      copyBoardSection_getElem? s.board (t + 1) CUT_OFF_ROW i hcl (by omega)]
  · rw [getD_map_range _ _ _ (by omega), if_pos (by omega)]
    calc (List.range BOARD_WIDTH).map (fun x => (s.board.getD t []).getD x 0)
        = (List.range (s.board.getD t []).length).map
            (fun x => (s.board.getD t []).getD x 0) := by rw [hrow]
      _ = s.board.getD t [] := map_range_getD_self _
  · intro y hy hyne
    rw [getD_map_range _ _ _ (by omega), if_neg (by omega)]

/-- C3 witness: the amended archival statement at a concrete lock of a board
whose full row sits at t = 10; instantiated at archive index 0. -/
theorem lockTowerSection_archival_correct_witness :
    (lockTowerSection sceneRowTen).historyGrid[0]? =
      some (sceneRowTen.board.getD 11 []) ∧
    (lockTowerSection sceneRowTen).board.getD (CUT_OFF_ROW - 1) [] =
      sceneRowTen.board.getD 10 [] :=
  ⟨(lockTowerSection_archival_correct sceneRowTen 10 rfl (by decide) (by decide)
      (by decide) (by decide)).1 0 (by decide),
   (lockTowerSection_archival_correct sceneRowTen 10 rfl (by decide) (by decide)
      (by decide) (by decide)).2.1⟩

/-- C3 counterexample: a lock-ready board whose topmost occupied row is 0
(a gutter block at the very top).  The claim asks the archive's first
`C - T - 1 = 33` rows to equal the pre-lock rows 1..33, but the archive is
truncated to `HISTORY_ROWS = 30` rows, so index 32 holds nothing. -/
theorem lockTowerSection_archival_counterexample :
    sceneGutterTop.lockReady = true ∧ findTopRow sceneGutterTop.board = 0 ∧
    ¬ (∀ i < CUT_OFF_ROW - (0 + 1),
      (lockTowerSection sceneGutterTop).historyGrid[i]? =
        some (sceneGutterTop.board.getD (0 + 1 + i) [])) := by decide

/-- Helper: a nonzero cell read is inside the row and board bounds. -/
theorem cellVal_ne_zero_bounds (b : Board) (x y : ℕ) (h : cellVal b x y ≠ 0) :
    y < b.length ∧ x < (b.getD y []).length := by
  unfold cellVal at h
  constructor
  · by_contra hc
    push_neg at hc
    rw [List.getD_eq_default _ _ hc] at h
    simp at h
  · by_contra hc
    push_neg at hc
    rw [List.getD_eq_default _ _ hc] at h
    exact h rfl

/-- Helper: writing one cell leaves every other row unchanged. -/
theorem cellVal_setCell_row_ne (b : Board) (x' y' v x y : ℕ) (h : y ≠ y') :
    cellVal (setCell b x' y' v) x y = cellVal b x y := by
  unfold cellVal setCell
  congr 1
  rw [List.getD_eq_getElem?_getD, List.getD_eq_getElem?_getD,
    List.getElem?_set_ne (Ne.symm h), List.getD_eq_getElem?_getD]

/-- Helper: the row written by an in-bounds `setCell`. -/
theorem setCell_row_self (b : Board) (x' y : ℕ) (v : ℕ) (hlen : y < b.length) :
    (setCell b x' y v).getD y [] = (b.getD y []).set x' v := by
  unfold setCell
  rw [List.getD_eq_getElem?_getD, List.getElem?_set_self hlen]
  rfl

/-- Helper: writing one cell leaves every other column unchanged. -/
theorem cellVal_setCell_col_ne (b : Board) (x' y' v x y : ℕ) (h : x ≠ x') :
    cellVal (setCell b x' y' v) x y = cellVal b x y := by
  by_cases hy : y = y'
  · subst hy
    by_cases hlen : y < b.length
    · unfold cellVal
      rw [setCell_row_self b x' y v hlen]
      rw [List.getD_eq_getElem?_getD, List.getD_eq_getElem?_getD,
        List.getElem?_set_ne (Ne.symm h), List.getD_eq_getElem?_getD]
    · push_neg at hlen
      unfold setCell
      rw [List.set_eq_of_length_le hlen]
  · exact cellVal_setCell_row_ne b x' y' v x y hy

/-- Helper: writing an in-bounds cell stores the new value. -/
theorem cellVal_setCell_self (b : Board) (x y v : ℕ) (h1 : y < b.length)
    (h2 : x < (b.getD y []).length) :
    cellVal (setCell b x y v) x y = v := by
  unfold cellVal
  rw [setCell_row_self b x y v h1, List.getD_eq_getElem?_getD,
    List.getElem?_set_self h2]
  rfl

/-- Helper: one capped-bonus step is monotone in the incoming value. -/
theorem min_one_add_mono (v w u : ℚ) (h : v ≤ w) : min 1 (v + u) ≤ min 1 (w + u) :=
  min_le_min le_rfl (by linarith)

/-- Helper: the bonus chain is monotone in the incoming value. -/
theorem overhangBonuses_mono (b : Board) (x y : ℕ) (v w : ℚ) (h : v ≤ w) :
    overhangBonuses b x y v ≤ overhangBonuses b x y w := by
  unfold overhangBonuses
  split_ifs <;>
    first
      | exact h
      | exact min_one_add_mono _ _ _ h
      | exact min_one_add_mono _ _ _ (min_one_add_mono _ _ _ h)
      | exact min_one_add_mono _ _ _ (min_one_add_mono _ _ _ (min_one_add_mono _ _ _ h))

/-- Helper: the overhang pass at a single cell, unfolded. -/
theorem applyOverhangPenalties_apply (b : Board) (S : Pos → ℚ) (cutOff x y : ℕ) :
    applyOverhangPenalties b S cutOff (x, y) =
      if towerX x ∧ cellVal b x y = 1 then
        if y + 1 < cutOff then
          overhangBonuses b x y (overhangPenalised b x y (S (x, y)))
        else if y + 1 = cutOff then 1
        else S (x, y)
      else S (x, y) := rfl

/-- C6 (amended): for a fixed input stability matrix, the overhang pass
alone never raises the value of a filled cell when the support cell
directly beneath it is removed (given the incoming value respects the -1
clamp, as every value the pipeline feeds into this pass does).  The full
recompute does not satisfy this: see the counterexample. -/
theorem overhang_support_removal_monotone (b : Board) (S : Pos → ℚ)
    (x y cutOff : ℕ) (hS : -1 ≤ S (x, y)) (hfill : cellVal b x y = 1)
    (hsup : cellVal b x (y + 1) = 1) :
    applyOverhangPenalties (setCell b x (y + 1) 0) S cutOff (x, y) ≤
      applyOverhangPenalties b S cutOff (x, y) := by
  have hb := cellVal_ne_zero_bounds b x (y + 1) (by rw [hsup]; exact one_ne_zero)
  have hrow : ∀ x', cellVal (setCell b x (y + 1) 0) x' y = cellVal b x' y :=
    fun x' => cellVal_setCell_row_ne b x (y + 1) 0 x' y (by omega)
  have hdrop : cellVal (setCell b x (y + 1) 0) x (y + 1) = 0 :=
    cellVal_setCell_self b x (y + 1) 0 hb.1 hb.2
  by_cases htx : towerX x
  · have hx4 : GUTTER_WIDTH ≤ x := htx.1
    have hxl : x - 1 ≠ x := by unfold GUTTER_WIDTH at hx4; omega
    have hxr : x + 1 ≠ x := by omega
    have hbon : ∀ v, overhangBonuses (setCell b x (y + 1) 0) x y v =
        overhangBonuses b x y v := by
      intro v
      unfold overhangBonuses
      rw [hrow (x - 1), hrow (x + 1)]
    have hpen : overhangPenalised (setCell b x (y + 1) 0) x y (S (x, y)) ≤
        overhangPenalised b x y (S (x, y)) := by
      unfold overhangPenalised
      rw [hdrop, hsup]
      rw [if_neg (by norm_num), if_pos rfl]
      split_ifs with hd
      · exact max_le hS (by unfold OVERHANG_PENALTY; linarith)
      · exact max_le hS (by unfold OVERHANG_PENALTY; linarith)
    rw [applyOverhangPenalties_apply, applyOverhangPenalties_apply]
    simp only [hrow x, hfill, htx, eq_self_iff_true, and_true, true_and, if_true]
    by_cases hyc : y + 1 < cutOff
    · rw [if_pos hyc, if_pos hyc, hbon]
      exact overhangBonuses_mono b x y _ _ hpen
    · rw [if_neg hyc, if_neg hyc]
  · rw [applyOverhangPenalties_apply, applyOverhangPenalties_apply,
      if_neg (by rw [hrow x]; exact fun hc => htx hc.1),
      if_neg (fun hc => htx hc.1)]

/-- C6 witness: the overhang-pass monotonicity at a concrete column board,
cell (5,0) supported by (5,1). -/
theorem overhang_support_removal_monotone_witness :
    applyOverhangPenalties (setCell bColumnFive 5 1 0) (fun _ => 1) 3 (5, 0) ≤
      applyOverhangPenalties bColumnFive (fun _ => 1) 3 (5, 0) :=
  overhang_support_removal_monotone bColumnFive (fun _ => 1) 5 0 3 (by norm_num)
    (by decide) (by decide)

/-- C6 counterexample: removing the support cell (8,5) beneath the filled
cell (8,4) RAISES that cell's value under the full recompute (void
detection plus the three passes): with the plug present the enclosed void
(7,5) penalises its capping neighbourhood, and without it the void becomes
reachable and the penalty disappears, outweighing the overhang penalty. -/
theorem stability_support_removal_counterexample :
    cellVal bPlugged 8 4 = 1 ∧ cellVal bPlugged 8 5 = 1 ∧
    bOpen = setCell bPlugged 8 5 0 ∧
    stabilityPassMatrix bPlugged (8, 4) < stabilityPassMatrix bOpen (8, 4) := by
  refine ⟨by decide, by decide, by decide, by decide⟩

/-- Helper: the depth penalty lies in [0, 0.4]. -/
theorem depthPenaltyOf_bounds (d : ℕ) :
    0 ≤ depthPenaltyOf d ∧ depthPenaltyOf d ≤ 0.4 := by
  unfold depthPenaltyOf
  constructor
  · exact le_min (by norm_num) (by positivity)
  · exact min_le_left _ _

/-- Helper: the size penalty lies in [0, 0.3]. -/
theorem sizePenaltyOf_bounds (n : ℕ) :
    0 ≤ sizePenaltyOf n ∧ sizePenaltyOf n ≤ 0.3 := by
  unfold sizePenaltyOf
  constructor
  · exact le_min (by norm_num) (by positivity)
  · exact min_le_left _ _

/-- Helper: every void seed value lies in [-1.4, -0.2]; the -1.4 floor is
the critical base -0.7 minus the 0.4 depth cap minus the 0.3 size cap. -/
theorem voidPenalty_bounds (info : VoidCluster) :
    -1.4 ≤ voidPenalty info ∧ voidPenalty info ≤ -0.2 := by
  have hd := depthPenaltyOf_bounds info.depth
  have hs := sizePenaltyOf_bounds info.size
  unfold voidPenalty
  cases info.vtype <;> constructor <;> simp only <;> linarith [hd.1, hd.2, hs.1, hs.2]

/-- Helper: the propagation effect strength is nonnegative. -/
theorem effectStrength_nonneg (t : VoidType) (n : ℕ) :
    0 ≤ min 0.5 (baseEffect t + (n : ℚ) * 0.01) := by
  apply le_min (by norm_num)
  have : (0 : ℚ) ≤ (n : ℚ) * 0.01 := by positivity
  cases t <;> unfold baseEffect <;> linarith

/-- Helper: `propagateVoidEffects` keeps every cell value in [-1.4, 1]. -/
theorem propagateVoidEffects_bounds (b : Board) (S : Pos → ℚ) (info : VoidCluster)
    (cutOff : ℕ) (h : ∀ q, -1.4 ≤ S q ∧ S q ≤ 1) (q : Pos) :
    -1.4 ≤ propagateVoidEffects b S info cutOff q ∧
      propagateVoidEffects b S info cutOff q ≤ 1 := by
  have he := effectStrength_nonneg info.vtype info.size
  have hq := h q
  unfold propagateVoidEffects
  split_ifs <;> constructor <;>
    first
      | exact hq.1
      | exact hq.2
      | linarith [le_max_left (0 : ℚ) (S q - min 0.5 (baseEffect info.vtype +
          (info.size : ℚ) * 0.01) * 1.5)]
      | exact max_le (by norm_num) (by linarith)
      | linarith [le_max_left (0 : ℚ) (S q - min 0.5 (baseEffect info.vtype +
          (info.size : ℚ) * 0.01) * 0.5)]
      | linarith [le_max_left (0 : ℚ) (S q - min 0.5 (baseEffect info.vtype +
          (info.size : ℚ) * 0.01))]

/-- Helper: a cluster-list propagation fold keeps values in [-1.4, 1]. -/
theorem propagate_fold_bounds (b : Board) (cutOff : ℕ) (infos : List VoidCluster)
    (S : Pos → ℚ) (h : ∀ q, -1.4 ≤ S q ∧ S q ≤ 1) (q : Pos) :
    -1.4 ≤ infos.foldl (fun T info => propagateVoidEffects b T info cutOff) S q ∧
      infos.foldl (fun T info => propagateVoidEffects b T info cutOff) S q ≤ 1 := by
  induction infos generalizing S with
  | nil => exact h q
  | cons info rest ih =>
    exact ih _ (fun r => propagateVoidEffects_bounds b S info cutOff h r)

/-- Helper: the stability matrix written by one scan step, unfolded. -/
theorem scanStep_stab (b : Board) (accSet : Finset Pos) (cutOff : ℕ)
    (st : DetectState) (p : Pos) :
    (scanStep b accSet cutOff st p).stab =
      if p ∈ st.visited ∨ cellVal b p.1 p.2 = 1 then st.stab
      else if p ∈ accSet ∨ ¬ hasBlockAbove b p then st.stab
      else if (¬ ∃ q ∈ identifyVoidCluster b st.visited p cutOff,
          hasBlockAbove b q) ∨ identifyVoidCluster b st.visited p cutOff = ∅ then
        st.stab
      else fun q =>
        if q ∈ identifyVoidCluster b st.visited p cutOff then
          voidPenalty (analyzeVoidCluster b (identifyVoidCluster b st.visited p cutOff))
        else st.stab q := by
  unfold scanStep
  split_ifs <;> rfl

/-- Helper: one scan step keeps every cell value in [-1.4, 1]. -/
theorem scanStep_bounds (b : Board) (accSet : Finset Pos) (cutOff : ℕ)
    (st : DetectState) (p : Pos) (h : ∀ q, -1.4 ≤ st.stab q ∧ st.stab q ≤ 1)
    (q : Pos) :
    -1.4 ≤ (scanStep b accSet cutOff st p).stab q ∧
      (scanStep b accSet cutOff st p).stab q ≤ 1 := by
  rw [scanStep_stab]
  split_ifs
  · exact h q
  · exact h q
  · exact h q
  · have hv := voidPenalty_bounds
      (analyzeVoidCluster b (identifyVoidCluster b st.visited p cutOff))
    by_cases hm : q ∈ identifyVoidCluster b st.visited p cutOff
    · simp only [hm, if_true]
      exact ⟨hv.1, by linarith [hv.2]⟩
    · simp only [hm, if_false]
      exact h q

/-- Helper: the whole scan fold keeps every cell value in [-1.4, 1]. -/
theorem scan_fold_bounds (b : Board) (accSet : Finset Pos) (cutOff : ℕ)
    (ps : List Pos) (st : DetectState)
    (h : ∀ q, -1.4 ≤ st.stab q ∧ st.stab q ≤ 1) (q : Pos) :
    -1.4 ≤ (ps.foldl (scanStep b accSet cutOff) st).stab q ∧
      (ps.foldl (scanStep b accSet cutOff) st).stab q ≤ 1 := by
  induction ps generalizing st with
  | nil => exact h q
  | cons p rest ih =>
    exact ih _ (fun r => scanStep_bounds b accSet cutOff st p h r)

/-- Helper: the void detector emits values in [-1.4, 1] from the all-ones
seed matrix. -/
theorem detectVoids_bounds (b : Board) (topRow cutOff : ℕ) (q : Pos) :
    -1.4 ≤ (detectVoids b topRow (fun _ => 1) cutOff).1 q ∧
      (detectVoids b topRow (fun _ => 1) cutOff).1 q ≤ 1 := by
  unfold detectVoids
  exact propagate_fold_bounds b cutOff _ _
    (scan_fold_bounds b _ cutOff _ _ (fun r => by norm_num)) q

/-- Helper: one capped bonus step stays in [-1.4, 1]. -/
theorem clamp_bonus_bounds (c : Prop) [Decidable c] (v w : ℚ) (h1 : -1.4 ≤ v)
    (h2 : v ≤ 1) (hw : 0 ≤ w) :
    -1.4 ≤ (if c then min 1 (v + w) else v) ∧ (if c then min 1 (v + w) else v) ≤ 1 := by
  split_ifs
  · exact ⟨le_min (by norm_num) (by linarith), min_le_left _ _⟩
  · exact ⟨h1, h2⟩

/-- Helper: the bonus chain stays in [-1.4, 1]. -/
theorem overhangBonuses_bounds (b : Board) (x y : ℕ) (v : ℚ) (h1 : -1.4 ≤ v)
    (h2 : v ≤ 1) :
    -1.4 ≤ overhangBonuses b x y v ∧ overhangBonuses b x y v ≤ 1 := by
  unfold overhangBonuses
  have s1 := clamp_bonus_bounds (GUTTER_WIDTH < x ∧ cellVal b (x - 1) y = 1) v
    NEIGHBOR_WEIGHT h1 h2 (by unfold NEIGHBOR_WEIGHT; norm_num)
  have s2 := clamp_bonus_bounds (x < GUTTER_WIDTH + TOWER_WIDTH - 1 ∧
    cellVal b (x + 1) y = 1) _ NEIGHBOR_WEIGHT s1.1 s1.2
    (by unfold NEIGHBOR_WEIGHT; norm_num)
  exact clamp_bonus_bounds (x = GUTTER_WIDTH ∨ x = GUTTER_WIDTH + TOWER_WIDTH - 1)
    _ (NEIGHBOR_WEIGHT * 0.3) s2.1 s2.2 (by unfold NEIGHBOR_WEIGHT; norm_num)

/-- Helper: the overhang penalty step stays in [-1.4, 1]. -/
theorem overhangPenalised_bounds (b : Board) (x y : ℕ) (v : ℚ) (h1 : -1.4 ≤ v)
    (h2 : v ≤ 1) :
    -1.4 ≤ overhangPenalised b x y v ∧ overhangPenalised b x y v ≤ 1 := by
  unfold overhangPenalised
  split_ifs
  · exact ⟨h1, h2⟩
  · constructor
    · linarith [le_max_left (-1 : ℚ) (v - OVERHANG_PENALTY * 0.7)]
    · exact max_le (by norm_num) (by unfold OVERHANG_PENALTY; linarith)
  · constructor
    · linarith [le_max_left (-1 : ℚ) (v - OVERHANG_PENALTY * 2)]
    · exact max_le (by norm_num) (by unfold OVERHANG_PENALTY; linarith)

/-- Helper: the full overhang pass keeps every cell value in [-1.4, 1]. -/
theorem applyOverhangPenalties_bounds (b : Board) (S : Pos → ℚ) (cutOff : ℕ)
    (h : ∀ q, -1.4 ≤ S q ∧ S q ≤ 1) (p : Pos) :
    -1.4 ≤ applyOverhangPenalties b S cutOff p ∧
      applyOverhangPenalties b S cutOff p ≤ 1 := by
  obtain ⟨x, y⟩ := p
  rw [applyOverhangPenalties_apply]
  have hp := overhangPenalised_bounds b x y (S (x, y)) (h (x, y)).1 (h (x, y)).2
  have hb := overhangBonuses_bounds b x y _ hp.1 hp.2
  split_ifs
  · exact hb
  · exact ⟨by norm_num, le_refl 1⟩
  · exact h (x, y)
  · exact h (x, y)

/-- Helper: the thin-width pass at a single cell, unfolded. -/
theorem applyThinWidthPenalties_apply (b : Board) (S : Pos → ℚ) (cutOff x y : ℕ) :
    applyThinWidthPenalties b S cutOff (x, y) =
      if y < cutOff ∧ towerX x ∧ cellVal b x y = 1 ∧ 0 < rowWidthOf b y ∧
          rowWidthOf b y < MIN_STABLE_WIDTH then
        max (-1) (S (x, y) - ((MIN_STABLE_WIDTH : ℚ) - (rowWidthOf b y : ℚ)) /
          (MIN_STABLE_WIDTH : ℚ) * THIN_TOWER_PENALTY * 1.5)
      else S (x, y) := rfl

/-- Helper: the thin-width pass keeps every cell value in [-1.4, 1]. -/
theorem applyThinWidthPenalties_bounds (b : Board) (S : Pos → ℚ) (cutOff : ℕ)
    (h : ∀ q, -1.4 ≤ S q ∧ S q ≤ 1) (p : Pos) :
    -1.4 ≤ applyThinWidthPenalties b S cutOff p ∧
      applyThinWidthPenalties b S cutOff p ≤ 1 := by
  obtain ⟨x, y⟩ := p
  have hq := h (x, y)
  rw [applyThinWidthPenalties_apply]
  split_ifs with hc
  · have hwn : rowWidthOf b y < 6 := hc.2.2.2.2
    have hw : (rowWidthOf b y : ℚ) ≤ 6 := by exact_mod_cast le_of_lt hwn
    have hpen : 0 ≤ ((MIN_STABLE_WIDTH : ℚ) - (rowWidthOf b y : ℚ)) /
        (MIN_STABLE_WIDTH : ℚ) * THIN_TOWER_PENALTY * 1.5 := by
      unfold MIN_STABLE_WIDTH THIN_TOWER_PENALTY
      push_cast
      have h6 : (0 : ℚ) ≤ (6 - (rowWidthOf b y : ℚ)) / 6 :=
        div_nonneg (by linarith) (by norm_num)
      exact mul_nonneg (mul_nonneg h6 (by norm_num)) (by norm_num)
    constructor
    · linarith [le_max_left (-1 : ℚ) (S (x, y) - ((MIN_STABLE_WIDTH : ℚ) -
        (rowWidthOf b y : ℚ)) / (MIN_STABLE_WIDTH : ℚ) * THIN_TOWER_PENALTY * 1.5)]
    · exact max_le (by norm_num) (by linarith)
  · exact hq

/-- Helper: the balance pass at a single cell, unfolded. -/
theorem applyBalancePenalties_apply (b : Board) (S : Pos → ℚ) (cutOff x y : ℕ) :
    applyBalancePenalties b S cutOff (x, y) =
      if y < cutOff ∧ towerX x ∧ cellVal b x y = 1 ∧ 1 < rowWidthOf b y ∧
          0.3 < |(rowWeightedSum b y : ℚ) / (rowWidthOf b y : ℚ) -
            ((GUTTER_WIDTH : ℚ) + (TOWER_WIDTH : ℚ) / 2)| / ((TOWER_WIDTH : ℚ) / 2) then
        max (-1) (S (x, y) -
          (|(rowWeightedSum b y : ℚ) / (rowWidthOf b y : ℚ) -
            ((GUTTER_WIDTH : ℚ) + (TOWER_WIDTH : ℚ) / 2)| / ((TOWER_WIDTH : ℚ) / 2) -
              0.3) * BALANCE_PENALTY *
            (0.5 + |(x : ℚ) - ((GUTTER_WIDTH : ℚ) + (TOWER_WIDTH : ℚ) / 2)| /
              ((TOWER_WIDTH : ℚ) / 2) * 0.5))
      else S (x, y) := rfl

/-- Helper: the balance pass keeps every cell value in [-1.4, 1]. -/
theorem applyBalancePenalties_bounds (b : Board) (S : Pos → ℚ) (cutOff : ℕ)
    (h : ∀ q, -1.4 ≤ S q ∧ S q ≤ 1) (p : Pos) :
    -1.4 ≤ applyBalancePenalties b S cutOff p ∧
      applyBalancePenalties b S cutOff p ≤ 1 := by
  obtain ⟨x, y⟩ := p
  have hq := h (x, y)
  rw [applyBalancePenalties_apply]
  split_ifs with hc
  · have himb : (0.3 : ℚ) < |(rowWeightedSum b y : ℚ) / (rowWidthOf b y : ℚ) -
        ((GUTTER_WIDTH : ℚ) + (TOWER_WIDTH : ℚ) / 2)| / ((TOWER_WIDTH : ℚ) / 2) :=
      hc.2.2.2.2
    have hdist : (0 : ℚ) ≤ |(x : ℚ) - ((GUTTER_WIDTH : ℚ) + (TOWER_WIDTH : ℚ) / 2)| /
        ((TOWER_WIDTH : ℚ) / 2) := by positivity
    have hpen : 0 ≤ (|(rowWeightedSum b y : ℚ) / (rowWidthOf b y : ℚ) -
        ((GUTTER_WIDTH : ℚ) + (TOWER_WIDTH : ℚ) / 2)| / ((TOWER_WIDTH : ℚ) / 2) -
          0.3) * BALANCE_PENALTY *
        (0.5 + |(x : ℚ) - ((GUTTER_WIDTH : ℚ) + (TOWER_WIDTH : ℚ) / 2)| /
          ((TOWER_WIDTH : ℚ) / 2) * 0.5) := by
      apply mul_nonneg (mul_nonneg (by linarith) (by unfold BALANCE_PENALTY; norm_num))
      linarith
    constructor
    · linarith [le_max_left (-1 : ℚ) (S (x, y) -
        (|(rowWeightedSum b y : ℚ) / (rowWidthOf b y : ℚ) -
          ((GUTTER_WIDTH : ℚ) + (TOWER_WIDTH : ℚ) / 2)| / ((TOWER_WIDTH : ℚ) / 2) -
            0.3) * BALANCE_PENALTY *
          (0.5 + |(x : ℚ) - ((GUTTER_WIDTH : ℚ) + (TOWER_WIDTH : ℚ) / 2)| /
            ((TOWER_WIDTH : ℚ) / 2) * 0.5))]
    · exact max_le (by norm_num) (by linarith)
  · exact hq

/-- C9: after the full stability recompute, every cell-stability value lies
in [-1.4, 1]: the three penalty passes clamp at -1 and cap bonuses at 1,
while void seeding can go as low as -0.7 - 0.4 - 0.3 = -1.4, strictly below
the -1 clamp used elsewhere. -/
theorem stabilityPassMatrix_bounds (b : Board) (p : Pos) :
    -1.4 ≤ stabilityPassMatrix b p ∧ stabilityPassMatrix b p ≤ 1 := by
  unfold stabilityPassMatrix pipelineMatrix
  exact applyBalancePenalties_bounds _ _ _
    (fun q => applyThinWidthPenalties_bounds _ _ _
      (fun r => applyOverhangPenalties_bounds _ _ _
        (fun u => detectVoids_bounds b _ _ u) r) q) p

/-- Helper: membership in one saturation round. -/
theorem mem_satStep (P : Pos → Bool) (s : Finset Pos) (q : Pos) :
    q ∈ satStep P s ↔ q ∈ s ∨ ∃ p ∈ s, P q = true ∧ q ∈ nbrs p := by
  unfold satStep
  simp only [Finset.mem_union, Finset.mem_biUnion, List.mem_toFinset,
    List.mem_filter]
  constructor
  · rintro (h | ⟨p, hp, hq, hPq⟩)
    · exact Or.inl h
    · exact Or.inr ⟨p, hp, hPq, hq⟩
  · rintro (h | ⟨p, hp, hPq, hq⟩)
    · exact Or.inl h
    · exact Or.inr ⟨p, hp, hq, hPq⟩

/-- Helper: a saturation round only grows the set. -/
theorem subset_satStep (P : Pos → Bool) (s : Finset Pos) : s ⊆ satStep P s :=
  Finset.subset_union_left

/-- Helper: the saturation loop only grows the set. -/
theorem subset_satGo (P : Pos → Bool) (n : ℕ) (s : Finset Pos) :
    s ⊆ satGo P n s := by
  induction n generalizing s with
  | zero => exact subset_refl s
  | succ m ih =>
    unfold satGo
    split_ifs
    · exact subset_refl s
    · exact (subset_satStep P s).trans (ih (satStep P s))

/-- Helper: a saturation round stays inside a universe that contains the
current set and every valid cell. -/
theorem satStep_subset_of (P : Pos → Bool) (U s : Finset Pos)
    (hP : ∀ p, P p = true → p ∈ U) (hs : s ⊆ U) : satStep P s ⊆ U := by
  intro q hq
  rcases (mem_satStep P s q).mp hq with h | ⟨p, _, hPq, _⟩
  · exact hs h
  · exact hP q hPq

/-- Helper: with fuel past the universe size, the saturation loop reaches a
fixed point of the saturation round. -/
theorem satGo_fix (P : Pos → Bool) (U : Finset Pos)
    (hP : ∀ p, P p = true → p ∈ U) :
    ∀ (n : ℕ) (s : Finset Pos), s ⊆ U → U.card + 1 ≤ n + s.card →
      satStep P (satGo P n s) = satGo P n s := by
  intro n
  induction n with
  | zero =>
    intro s hs hcard
    have := Finset.card_le_card hs
    omega
  | succ m ih =>
    intro s hs hcard
    unfold satGo
    split_ifs with hfix
    · exact hfix
    · apply ih (satStep P s) (satStep_subset_of P U s hP hs)
      have hlt : s.card < (satStep P s).card :=
        Finset.card_lt_card (Finset.ssubset_iff_subset_ne.mpr
          ⟨subset_satStep P s, fun hc => hfix hc.symm⟩)
      omega

/-- Helper: every set the saturation loop produces satisfies any property
that holds on the start set and is closed under valid steps. -/
theorem satGo_closure (P : Pos → Bool) (R : Pos → Prop)
    (hstep : ∀ p q, R p → P q = true → q ∈ nbrs p → R q) :
    ∀ (n : ℕ) (s : Finset Pos), (∀ q ∈ s, R q) → ∀ q ∈ satGo P n s, R q := by
  intro n
  induction n with
  | zero => exact fun s hs => hs
  | succ m ih =>
    intro s hs
    unfold satGo
    split_ifs
    · exact hs
    · refine ih (satStep P s) ?_
      intro q hq
      rcases (mem_satStep P s q).mp hq with h | ⟨p, hp, hPq, hnb⟩
      · exact hs q h
      · exact hstep p q (hs p hp) hPq hnb

/-- Helper: every saturated cell satisfies the validity predicate. -/
theorem saturate_mem_P (P : Pos → Bool) (init : List Pos) (fuel : ℕ) (q : Pos)
    (hq : q ∈ saturate P init fuel) : P q = true := by
  refine satGo_closure P (fun r => P r = true) (fun p r _ hr _ => hr) fuel _
    ?_ q hq
  intro r hr
  exact (List.mem_filter.mp (List.mem_toFinset.mp hr)).2

/-- Helper: the saturated set of the one-step relation is exactly the set of
cells reachable from a valid seed. -/
theorem mem_saturate (P : Pos → Bool) (U : Finset Pos) (init : List Pos)
    (fuel : ℕ) (hP : ∀ p, P p = true → p ∈ U) (hfuel : U.card + 1 ≤ fuel)
    (q : Pos) :
    q ∈ saturate P init fuel ↔ ∃ p ∈ init, P p = true ∧ ReachP P p q := by
  have hinit : (init.filter P).toFinset ⊆ U := by
    intro r hr
    exact hP r (List.mem_filter.mp (List.mem_toFinset.mp hr)).2
  have hfix : satStep P (saturate P init fuel) = saturate P init fuel :=
    satGo_fix P U hP fuel _ hinit (by omega)
  constructor
  · intro hq
    refine satGo_closure P
      (fun r => ∃ p ∈ init, P p = true ∧ ReachP P p r) ?_ fuel _ ?_ q hq
    · rintro p r ⟨p0, hp0, hPp0, hreach⟩ hPr hnb
      have hPp : P p = true := by
        rcases Relation.ReflTransGen.cases_tail hreach with h | ⟨c, _hrc, hlast⟩
        · subst h; exact hPp0
        · exact hlast.2.1
      exact ⟨p0, hp0, hPp0, hreach.tail ⟨hPp, hPr, hnb⟩⟩
    · intro r hr
      have := List.mem_filter.mp (List.mem_toFinset.mp hr)
      exact ⟨r, this.1, this.2, Relation.ReflTransGen.refl⟩
  · rintro ⟨p, hpinit, hPp, hreach⟩
    have hpsat : p ∈ saturate P init fuel :=
      subset_satGo P fuel _ (List.mem_toFinset.mpr
        (List.mem_filter.mpr ⟨hpinit, hPp⟩))
    induction hreach with
    | refl => exact hpsat
    | tail hr hadj ih =>
      rw [← hfix]
      exact (mem_satStep P _ _).mpr (Or.inr ⟨_, ih, hadj.2.1, hadj.2.2⟩)

/-- Helper: the queued-neighbour relation is symmetric (natural subtraction
truncates at 0, where the truncated neighbour is the cell itself). -/
theorem Adj_symm (p q : Pos) (h : Adj p q) : Adj q p := by
  obtain ⟨x, y⟩ := p
  obtain ⟨a, b⟩ := q
  unfold Adj nbrs at h ⊢
  simp only [List.mem_cons, List.not_mem_nil, or_false, Prod.mk.injEq] at h ⊢
  omega

/-- Helper: reachability is symmetric. -/
theorem ReachP_symm (P : Pos → Bool) (p q : Pos) (h : ReachP P p q) :
    ReachP P q p := by
  refine Relation.ReflTransGen.symmetric ?_ h
  rintro u v ⟨hu, hv, hadj⟩
  exact ⟨hv, hu, Adj_symm u v hadj⟩

/-- Helper: reachability is monotone in the validity predicate. -/
theorem ReachP_mono (P P' : Pos → Bool) (hle : ∀ r, P r = true → P' r = true)
    (p q : Pos) (h : ReachP P p q) : ReachP P' p q := by
  induction h with
  | refl => exact Relation.ReflTransGen.refl
  | tail _hr hadj ih => exact ih.tail ⟨hle _ hadj.1, hle _ hadj.2.1, hadj.2.2⟩

/-- Helper: unfolding the cluster validity test. -/
theorem clP_eq_true (b : Board) (cutOff : ℕ) (p : Pos) :
    clP b cutOff p = true ↔
      GUTTER_WIDTH ≤ p.1 ∧ p.1 < GUTTER_WIDTH + TOWER_WIDTH ∧ p.2 < cutOff ∧
        cellVal b p.1 p.2 ≠ 1 := by
  unfold clP
  simp [and_assoc]

/-- Helper: unfolding the accessibility validity test. -/
theorem accP_eq_true (b : Board) (p : Pos) :
    accP b p = true ↔
      GUTTER_WIDTH ≤ p.1 ∧ p.1 < GUTTER_WIDTH + TOWER_WIDTH ∧ p.2 < b.length ∧
        cellVal b p.1 p.2 ≠ 1 := by
  unfold accP
  simp [and_assoc]

/-- Helper: cluster-valid cells are accessibility-valid when the cutoff is
inside the board. -/
theorem clP_le_accP (b : Board) (cutOff : ℕ) (hcut : cutOff ≤ b.length) (r : Pos)
    (hr : clP b cutOff r = true) : accP b r = true := by
  rw [clP_eq_true] at hr
  rw [accP_eq_true]
  exact ⟨hr.1, hr.2.1, by omega, hr.2.2.2⟩

/-- Helper: the universe of accessibility-valid cells. -/
theorem accP_mem_universe (b : Board) (p : Pos) (hp : accP b p = true) :
    p ∈ Finset.range BOARD_WIDTH ×ˢ Finset.range b.length := by
  rw [accP_eq_true] at hp
  rw [Finset.mem_product, Finset.mem_range, Finset.mem_range]
  unfold GUTTER_WIDTH TOWER_WIDTH at hp
  unfold BOARD_WIDTH TOWER_WIDTH GUTTER_WIDTH
  omega

/-- Helper: membership in the accessibility fill: reachable through empty
tower cells from an empty tower cell of the topmost occupied row. -/
theorem mem_findAccessibleCells (b : Board) (topRow : ℕ) (q : Pos) :
    q ∈ findAccessibleCells b topRow ↔
      ∃ x, GUTTER_WIDTH ≤ x ∧ x < GUTTER_WIDTH + TOWER_WIDTH ∧
        cellVal b x topRow = 0 ∧ accP b (x, topRow) = true ∧
          ReachP (accP b) (x, topRow) q := by
  unfold findAccessibleCells
  rw [mem_saturate (accP b) (Finset.range BOARD_WIDTH ×ˢ Finset.range b.length) _
    _ (accP_mem_universe b) (by
      rw [Finset.card_product, Finset.card_range, Finset.card_range]
      unfold accFuel
      omega) q]
  constructor
  · rintro ⟨p, hpmem, hPp, hreach⟩
    rcases List.mem_map.mp hpmem with ⟨x, hx, rfl⟩
    rcases List.mem_filter.mp hx with ⟨hxt, hempty⟩
    have hxr := List.mem_range'_1.mp hxt
    exact ⟨x, hxr.1, hxr.2, by simpa using hempty, hPp, hreach⟩
  · rintro ⟨x, hx1, hx2, hempty, hPp, hreach⟩
    refine ⟨(x, topRow), List.mem_map.mpr ⟨x, List.mem_filter.mpr
      ⟨List.mem_range'_1.mpr ⟨hx1, by omega⟩, by simpa using hempty⟩, rfl⟩,
      hPp, hreach⟩

/-- Helper: the universe of cluster-valid cells. -/
theorem clP_mem_universe (b : Board) (cutOff : ℕ) (p : Pos)
    (hp : clP b cutOff p = true) :
    p ∈ Finset.range BOARD_WIDTH ×ˢ Finset.range cutOff := by
  rw [clP_eq_true] at hp
  rw [Finset.mem_product, Finset.mem_range, Finset.mem_range]
  unfold GUTTER_WIDTH TOWER_WIDTH at hp
  unfold BOARD_WIDTH TOWER_WIDTH GUTTER_WIDTH
  omega

/-- Helper: the cluster-avoiding validity test also sits inside the cluster
universe. -/
theorem clPV_mem_universe (b : Board) (cutOff : ℕ) (V : Finset Pos) (p : Pos)
    (hp : (clP b cutOff p && decide (p ∉ V)) = true) :
    p ∈ Finset.range BOARD_WIDTH ×ˢ Finset.range cutOff :=
  clP_mem_universe b cutOff p (Bool.and_eq_true_iff.mp hp).1

/-- Helper: membership in a cluster grown while avoiding visited cells. -/
theorem mem_identifyVoidCluster (b : Board) (V : Finset Pos) (p : Pos)
    (cutOff : ℕ) (q : Pos) :
    q ∈ identifyVoidCluster b V p cutOff ↔
      ((clP b cutOff p && decide (p ∉ V)) = true ∧
        ReachP (fun r => clP b cutOff r && decide (r ∉ V)) p q) := by
  unfold identifyVoidCluster
  rw [mem_saturate _ (Finset.range BOARD_WIDTH ×ˢ Finset.range cutOff) _ _
    (clPV_mem_universe b cutOff V) (by
      rw [Finset.card_product, Finset.card_range, Finset.card_range]
      unfold clFuel
      omega) q]
  simp

/-- Helper: membership in the full empty component of a cell. -/
theorem mem_voidComponent (b : Board) (cutOff : ℕ) (p q : Pos) :
    q ∈ voidComponent b cutOff p ↔
      (clP b cutOff p = true ∧ ReachP (clP b cutOff) p q) := by
  unfold voidComponent
  rw [mem_identifyVoidCluster]
  have hfun : (fun r => clP b cutOff r && decide (r ∉ (∅ : Finset Pos))) =
      clP b cutOff := by
    funext r
    simp
  rw [hfun]
  simp

/-- Helper: a valid cell belongs to its own component. -/
theorem mem_voidComponent_self (b : Board) (cutOff : ℕ) (p : Pos)
    (hp : clP b cutOff p = true) : p ∈ voidComponent b cutOff p :=
  (mem_voidComponent b cutOff p p).mpr ⟨hp, Relation.ReflTransGen.refl⟩

/-- Helper: every component member is a valid cell. -/
theorem voidComponent_mem_P (b : Board) (cutOff : ℕ) (p q : Pos)
    (hq : q ∈ voidComponent b cutOff p) : clP b cutOff q = true := by
  rcases (mem_voidComponent b cutOff p q).mp hq with ⟨hp, hreach⟩
  rcases Relation.ReflTransGen.cases_tail hreach with h | ⟨c, _, hlast⟩
  · subst h; exact hp
  · exact hlast.2.1

/-- Helper: component membership is symmetric. -/
theorem voidComponent_symm (b : Board) (cutOff : ℕ) (p q : Pos)
    (hq : q ∈ voidComponent b cutOff p) : p ∈ voidComponent b cutOff q := by
  rcases (mem_voidComponent b cutOff p q).mp hq with ⟨hp, hreach⟩
  exact (mem_voidComponent b cutOff q p).mpr
    ⟨voidComponent_mem_P b cutOff p q hq, ReachP_symm _ _ _ hreach⟩

/-- Helper: members of a component share the component. -/
theorem voidComponent_eq_of_mem (b : Board) (cutOff : ℕ) (p q : Pos)
    (hq : q ∈ voidComponent b cutOff p) :
    voidComponent b cutOff q = voidComponent b cutOff p := by
  rcases (mem_voidComponent b cutOff p q).mp hq with ⟨hp, hreach⟩
  have hq' : clP b cutOff q = true := voidComponent_mem_P b cutOff p q hq
  ext r
  rw [mem_voidComponent, mem_voidComponent]
  constructor
  · rintro ⟨_, hr⟩
    exact ⟨hp, hreach.trans hr⟩
  · rintro ⟨_, hr⟩
    exact ⟨hq', (ReachP_symm _ _ _ hreach).trans hr⟩

/-- Helper: adjacent valid cells share a component. -/
theorem adj_mem_voidComponent (b : Board) (cutOff : ℕ) (p q : Pos)
    (hp : clP b cutOff p = true) (hq : clP b cutOff q = true) (hadj : Adj p q) :
    q ∈ voidComponent b cutOff p :=
  (mem_voidComponent b cutOff p q).mpr
    ⟨hp, Relation.ReflTransGen.single ⟨hp, hq, hadj⟩⟩

/-- Helper: accessibility propagates along cluster-valid reachability when
the cutoff lies inside the board. -/
theorem acc_of_reach (b : Board) (topRow cutOff : ℕ) (hcut : cutOff ≤ b.length)
    (p q : Pos) (hp : p ∈ findAccessibleCells b topRow)
    (hreach : ReachP (clP b cutOff) p q) : q ∈ findAccessibleCells b topRow := by
  rcases (mem_findAccessibleCells b topRow p).mp hp with
    ⟨x, hx1, hx2, hempty, hPp, hr0⟩
  exact (mem_findAccessibleCells b topRow q).mpr
    ⟨x, hx1, hx2, hempty, hPp,
      hr0.trans (ReachP_mono _ _ (clP_le_accP b cutOff hcut) p q hreach)⟩

/-- Helper: accessibility is uniform on a component. -/
theorem acc_iff_of_mem_component (b : Board) (topRow cutOff : ℕ)
    (hcut : cutOff ≤ b.length) (p q : Pos) (hq : q ∈ voidComponent b cutOff p) :
    p ∈ findAccessibleCells b topRow ↔ q ∈ findAccessibleCells b topRow := by
  rcases (mem_voidComponent b cutOff p q).mp hq with ⟨_, hreach⟩
  exact ⟨fun h => acc_of_reach b topRow cutOff hcut p q h hreach,
    fun h => acc_of_reach b topRow cutOff hcut q p h (ReachP_symm _ _ _ hreach)⟩

/-- Helper: the capped-component condition is uniform on a component. -/
theorem compCap_iff_of_mem_component (b : Board) (cutOff : ℕ) (p q : Pos)
    (hq : q ∈ voidComponent b cutOff p) :
    compCap b cutOff p ↔ compCap b cutOff q := by
  unfold compCap
  rw [voidComponent_eq_of_mem b cutOff p q hq]

/-- Helper: a cluster grown avoiding a visited set disjoint from the full
component is the full component. -/
theorem identify_eq_component (b : Board) (V : Finset Pos) (p : Pos)
    (cutOff : ℕ) (hp : clP b cutOff p = true)
    (hdisj : ∀ q ∈ voidComponent b cutOff p, q ∉ V) :
    identifyVoidCluster b V p cutOff = voidComponent b cutOff p := by
  ext r
  rw [mem_identifyVoidCluster, mem_voidComponent]
  constructor
  · rintro ⟨hPp, hreach⟩
    exact ⟨hp, ReachP_mono _ _ (fun u hu => (Bool.and_eq_true_iff.mp hu).1) p r
      hreach⟩
  · rintro ⟨_, hreach⟩
    have hPVp : (clP b cutOff p && decide (p ∉ V)) = true := by
      rw [Bool.and_eq_true_iff]
      exact ⟨hp, decide_eq_true (hdisj p (mem_voidComponent_self b cutOff p hp))⟩
    refine ⟨hPVp, ?_⟩
    clear hPVp
    induction hreach with
    | refl => exact Relation.ReflTransGen.refl
    | tail hr hadj ih =>
      refine ih.tail ⟨?_, ?_, hadj.2.2⟩
      · rw [Bool.and_eq_true_iff]
        exact ⟨hadj.1, decide_eq_true
          (hdisj _ ((mem_voidComponent b cutOff p _).mpr ⟨hp, hr⟩))⟩
      · rw [Bool.and_eq_true_iff]
        exact ⟨hadj.2.1, decide_eq_true
          (hdisj _ ((mem_voidComponent b cutOff p _).mpr ⟨hp, hr.tail hadj⟩))⟩

/-- Helper: membership in the scan list. -/
theorem mem_scanList (topRow cutOff : ℕ) (p : Pos) :
    p ∈ scanList topRow cutOff ↔
      topRow ≤ p.2 ∧ p.2 < cutOff ∧ GUTTER_WIDTH ≤ p.1 ∧
        p.1 < GUTTER_WIDTH + TOWER_WIDTH := by
  obtain ⟨x, y⟩ := p
  unfold scanList towerXs
  rw [List.mem_flatMap]
  constructor
  · rintro ⟨y', hy', hmem⟩
    rcases List.mem_map.mp hmem with ⟨x', hx', heq⟩
    obtain ⟨rfl, rfl⟩ : x' = x ∧ y' = y := by
      constructor <;> [exact congrArg Prod.fst heq; exact congrArg Prod.snd heq]
    have h1 := List.mem_range'_1.mp hy'
    have h2 := List.mem_range'_1.mp hx'
    exact ⟨h1.1, by omega, h2.1, h2.2⟩
  · rintro ⟨h1, h2, h3, h4⟩
    exact ⟨y, List.mem_range'_1.mpr ⟨h1, by omega⟩,
      List.mem_map.mpr ⟨x, List.mem_range'_1.mpr ⟨h3, h4⟩, rfl⟩⟩

/-- Helper: one scan row is strictly increasing in the position key. -/
theorem scanRow_pairwise (y : ℕ) :
    (towerXs.map (fun x => ((x, y) : Pos))).Pairwise
      (fun a c => posKey a < posKey c) := by
  refine List.Pairwise.map _ ?_ (List.pairwise_lt_range' GUTTER_WIDTH TOWER_WIDTH)
  intro a c hac
  unfold posKey
  simp only
  omega

/-- Helper: the whole scan list is strictly increasing in the position key,
hence row-major ordered and duplicate-free. -/
theorem scanList_pairwise (topRow cutOff : ℕ) :
    (scanList topRow cutOff).Pairwise (fun a c => posKey a < posKey c) := by
  unfold scanList
  generalize cutOff - topRow = n
  induction n generalizing topRow with
  | zero => simp
  | succ m ih =>
    rw [List.range'_succ, List.flatMap_cons, List.pairwise_append]
    refine ⟨scanRow_pairwise topRow, ih (topRow + 1), ?_⟩
    intro a ha c hc
    rcases List.mem_map.mp ha with ⟨xa, hxa, rfl⟩
    rcases List.mem_flatMap.mp hc with ⟨y', hy', hc'⟩
    rcases List.mem_map.mp hc' with ⟨xc, hxc, rfl⟩
    have h1 := List.mem_range'_1.mp hxa
    have h2 := List.mem_range'_1.mp hxc
    have h3 := List.mem_range'_1.mp hy'
    unfold posKey BOARD_WIDTH
    simp only
    unfold towerXs at h1 h2
    unfold GUTTER_WIDTH TOWER_WIDTH at h1 h2 ⊢
    omega

/-- Helper: the scanned prefix does not contain the position being scanned. -/
theorem not_mem_prefix_of_split (topRow cutOff : ℕ) (Q R : List Pos) (p : Pos)
    (hsplit : scanList topRow cutOff = Q ++ p :: R) : p ∉ Q := by
  intro hmem
  have hpw := scanList_pairwise topRow cutOff
  rw [hsplit, List.pairwise_append] at hpw
  exact lt_irrefl (posKey p) (hpw.2.2 p hmem p (List.mem_cons_self p R))

/-- Helper: positions after the one being scanned have larger keys. -/
theorem key_lt_of_suffix (topRow cutOff : ℕ) (Q R : List Pos) (p r : Pos)
    (hsplit : scanList topRow cutOff = Q ++ p :: R) (hr : r ∈ R) :
    posKey p < posKey r := by
  have hpw := scanList_pairwise topRow cutOff
  rw [hsplit, List.pairwise_append] at hpw
  exact (List.pairwise_cons.mp hpw.2.1).1 r hr

/-- Helper: on a 0/1 board, the first scan-order member of an unreachable
component has a filled cell directly above it.  The cell above it is either
filled (done), a component member scanned earlier (contradicting firstness),
or sits above the topmost row, forcing the member onto the topmost row where
it would be a flood seed (contradicting unreachability). -/
theorem first_comp_member_capped (b : Board) (topRow cutOff : ℕ)
    (hcut : cutOff ≤ b.length)
    (h01 : ∀ u v, u < BOARD_WIDTH → v < b.length →
      cellVal b u v = 0 ∨ cellVal b u v = 1)
    (Q R : List Pos) (p : Pos)
    (hsplit : scanList topRow cutOff = Q ++ p :: R)
    (hp : clP b cutOff p = true)
    (hnacc : p ∉ findAccessibleCells b topRow)
    (hnoQ : ∀ q ∈ Q, q ∉ voidComponent b cutOff p) :
    hasBlockAbove b p = true := by
  obtain ⟨x, y⟩ := p
  have hpmem : (x, y) ∈ scanList topRow cutOff := by
    rw [hsplit]
    exact List.mem_append_right _ (List.mem_cons_self _ _)
  obtain ⟨hb1, hb2, hb3, hb4⟩ := (mem_scanList topRow cutOff (x, y)).mp hpmem
  have hclP := (clP_eq_true b cutOff (x, y)).mp hp
  by_contra hcap
  have hx18 : x < BOARD_WIDTH := by
    unfold BOARD_WIDTH TOWER_WIDTH GUTTER_WIDTH at *
    omega
  have hylen : y < b.length := by omega
  have hempty0 : cellVal b x y = 0 :=
    (h01 x y hx18 hylen).resolve_right hclP.2.2.2
  have hseed : y = topRow → False := by
    intro hy
    subst hy
    apply hnacc
    apply (mem_findAccessibleCells b y (x, y)).mpr
    refine ⟨x, hb3, hb4, hempty0, ?_, Relation.ReflTransGen.refl⟩
    rw [accP_eq_true]
    exact ⟨hb3, hb4, hylen, hclP.2.2.2⟩
  cases Nat.eq_zero_or_pos y with
  | inl hy0 =>
    exact hseed (by omega)
  | inr hypos =>
    have habove : cellVal b x (y - 1) ≠ 1 := by
      intro hc
      apply hcap
      unfold hasBlockAbove
      simp only
      rw [Bool.and_eq_true_iff]
      exact ⟨decide_eq_true hypos, by simpa using hc⟩
    by_cases hyt : y - 1 < topRow
    · exact hseed (by omega)
    · have hd : clP b cutOff (x, y - 1) = true := by
        rw [clP_eq_true]
        exact ⟨hb3, hb4, by omega, habove⟩
      have hdcomp : (x, y - 1) ∈ voidComponent b cutOff (x, y) := by
        apply adj_mem_voidComponent b cutOff (x, y) (x, y - 1) hp hd
        unfold Adj nbrs
        simp
      have hdscan : (x, y - 1) ∈ scanList topRow cutOff := by
        rw [mem_scanList]
        exact ⟨by omega, by omega, hb3, hb4⟩
      rw [hsplit] at hdscan
      rcases List.mem_append.mp hdscan with hQ | hPR
      · exact hnoQ _ hQ hdcomp
      · rcases List.mem_cons.mp hPR with heq | hR
        · have hyy : y - 1 = y := congrArg Prod.snd heq
          omega
        · have hk := key_lt_of_suffix topRow cutOff Q R _ _ hsplit hR
          unfold posKey BOARD_WIDTH TOWER_WIDTH GUTTER_WIDTH at hk
          simp only at hk
          omega

/-- Helper: the visited set written by one scan step, unfolded. -/
theorem scanStep_visited (b : Board) (accSet : Finset Pos) (cutOff : ℕ)
    (st : DetectState) (p : Pos) :
    (scanStep b accSet cutOff st p).visited =
      if p ∈ st.visited ∨ cellVal b p.1 p.2 = 1 then st.visited
      else if p ∈ accSet ∨ ¬ hasBlockAbove b p then insert p st.visited
      else st.visited ∪ identifyVoidCluster b st.visited p cutOff := by
  unfold scanStep
  split_ifs <;> rfl

/-- Helper: appending a position outside a set does not change whether the
set meets the list. -/
theorem exists_mem_append_singleton (Q : List Pos) (p : Pos) (s : Finset Pos)
    (hp : p ∉ s) :
    (∃ q ∈ Q ++ [p], q ∈ s) ↔ (∃ q ∈ Q, q ∈ s) := by
  constructor
  · rintro ⟨q, hq, hqs⟩
    rcases List.mem_append.mp hq with h | h
    · exact ⟨q, h, hqs⟩
    · rw [List.mem_singleton.mp h] at hqs
      exact absurd hqs hp
  · rintro ⟨q, hq, hqs⟩
    exact ⟨q, List.mem_append_left _ hq, hqs⟩

/-- Helper: one scan step preserves the scan invariant, extending the
processed prefix by the scanned position. -/
theorem scanStep_inv (b : Board) (topRow cutOff : ℕ) (hcut : cutOff ≤ b.length)
    (h01 : ∀ u v, u < BOARD_WIDTH → v < b.length →
      cellVal b u v = 0 ∨ cellVal b u v = 1)
    (Q R : List Pos) (p : Pos)
    (hsplit : scanList topRow cutOff = Q ++ p :: R)
    (st : DetectState) (hinv : scanInv b topRow cutOff Q st) :
    scanInv b topRow cutOff (Q ++ [p])
      (scanStep b (findAccessibleCells b topRow) cutOff st p) := by
  obtain ⟨I1, I2, I3⟩ := hinv
  have hpQ := not_mem_prefix_of_split topRow cutOff Q R p hsplit
  have hpmem : p ∈ scanList topRow cutOff := by
    rw [hsplit]
    exact List.mem_append_right _ (List.mem_cons_self _ _)
  obtain ⟨hb1, hb2, hb3, hb4⟩ := (mem_scanList topRow cutOff p).mp hpmem
  by_cases c1 : p ∈ st.visited ∨ cellVal b p.1 p.2 = 1
  · -- skip branch: the state does not change
    have hstep : scanStep b (findAccessibleCells b topRow) cutOff st p = st := by
      unfold scanStep
      rw [if_pos c1]
    rw [hstep]
    refine ⟨I1, ?_, I3⟩
    intro r hr
    constructor
    · intro hAB
      obtain ⟨hIa, hIb⟩ := (I2 r hr).1 hAB
      refine ⟨?_, hIb⟩
      rw [List.mem_append]
      constructor
      · intro hvr
        exact Or.inl (hIa.mp hvr)
      · rintro (hQr | hpr)
        · exact hIa.mpr hQr
        · rw [List.mem_singleton.mp hpr]
          rcases c1 with hv | hf
          · exact hv
          · rw [List.mem_singleton.mp hpr] at hr
            exact absurd hf ((clP_eq_true b cutOff p).mp hr).2.2.2
    · rintro ⟨hna, hcc⟩
      obtain ⟨hIa, hIb, hIc⟩ := (I2 r hr).2 ⟨hna, hcc⟩
      by_cases hpc : p ∈ voidComponent b cutOff r
      · have hclPp : clP b cutOff p = true := voidComponent_mem_P b cutOff r p hpc
        have hpvis : p ∈ st.visited := by
          rcases c1 with hv | hf
          · exact hv
          · exact absurd hf ((clP_eq_true b cutOff p).mp hclPp).2.2.2
        have hnap : p ∉ findAccessibleCells b topRow := fun hap =>
          hna ((acc_iff_of_mem_component b topRow cutOff hcut r p hpc).mpr hap)
        have hccp : compCap b cutOff p :=
          (compCap_iff_of_mem_component b cutOff r p hpc).mp hcc
        obtain ⟨hJa, _, _⟩ := (I2 p hclPp).2 ⟨hnap, hccp⟩
        have hexQr : ∃ q ∈ Q, q ∈ voidComponent b cutOff r := by
          rcases hJa.mp hpvis with ⟨q, hq, hqc⟩
          exact ⟨q, hq, by
            rw [← voidComponent_eq_of_mem b cutOff r p hpc]
            exact hqc⟩
        refine ⟨⟨fun hvr => ?_, fun _ => hIa.mpr hexQr⟩, fun _ => hIb hexQr, ?_⟩
        · rcases hexQr with ⟨q, hq, hqc⟩
          exact ⟨q, List.mem_append_left _ hq, hqc⟩
        · intro hne
          rcases hexQr with ⟨q, hq, hqc⟩
          exact absurd ⟨q, List.mem_append_left _ hq, hqc⟩ hne
      · rw [exists_mem_append_singleton Q p _ hpc]
        exact ⟨hIa, hIb, hIc⟩
  · have hnv : p ∉ st.visited := fun h => c1 (Or.inl h)
    have hnf : cellVal b p.1 p.2 ≠ 1 := fun h => c1 (Or.inr h)
    have hclPp : clP b cutOff p = true := by
      rw [clP_eq_true]
      exact ⟨hb3, hb4, hb2, hnf⟩
    by_cases c2 : p ∈ findAccessibleCells b topRow ∨ ¬ hasBlockAbove b p
    · -- mark branch: accessible or uncapped cell is marked visited alone
      have hclassAB : p ∈ findAccessibleCells b topRow ∨ ¬ compCap b cutOff p := by
        rcases c2 with hA | hncap
        · exact Or.inl hA
        · by_cases hA : p ∈ findAccessibleCells b topRow
          · exact Or.inl hA
          · refine Or.inr fun hcap => ?_
            obtain ⟨hJa, _, _⟩ := (I2 p hclPp).2 ⟨hA, hcap⟩
            have hnoQ : ∀ q ∈ Q, q ∉ voidComponent b cutOff p := fun q hq hqc =>
              hnv (hJa.mpr ⟨q, hq, hqc⟩)
            exact hncap (first_comp_member_capped b topRow cutOff hcut h01 Q R p
              hsplit hclPp hA hnoQ)
      have hstep : scanStep b (findAccessibleCells b topRow) cutOff st p =
          { st with visited := insert p st.visited } := by
        unfold scanStep
        rw [if_neg c1, if_pos c2]
      rw [hstep]
      refine ⟨?_, ?_, ?_⟩
      · intro q hq
        rcases Finset.mem_insert.mp hq with rfl | h
        · exact hclPp
        · exact I1 q h
      · intro r hr
        constructor
        · intro hAB
          obtain ⟨hIa, hIb⟩ := (I2 r hr).1 hAB
          refine ⟨?_, hIb⟩
          rw [Finset.mem_insert, List.mem_append]
          constructor
          · rintro (rfl | hv)
            · exact Or.inr (List.mem_singleton_self r)
            · exact Or.inl (hIa.mp hv)
          · rintro (hQ | hp1)
            · exact Or.inr (hIa.mpr hQ)
            · exact Or.inl (List.mem_singleton.mp hp1)
        · rintro ⟨hna, hcc⟩
          obtain ⟨hIa, hIb, hIc⟩ := (I2 r hr).2 ⟨hna, hcc⟩
          have hpnc : p ∉ voidComponent b cutOff r := by
            intro hpc
            rcases hclassAB with hA | hncap
            · exact hna ((acc_iff_of_mem_component b topRow cutOff hcut r p
                hpc).mpr hA)
            · exact hncap ((compCap_iff_of_mem_component b cutOff r p hpc).mp hcc)
          have hrnep : r ≠ p := by
            rintro rfl
            exact hpnc (mem_voidComponent_self b cutOff r hr)
          rw [exists_mem_append_singleton Q p _ hpnc]
          refine ⟨?_, hIb, hIc⟩
          rw [Finset.mem_insert]
          constructor
          · rintro (h | hv)
            · exact absurd h hrnep
            · exact hIa.mp hv
          · intro hex
            exact Or.inr (hIa.mpr hex)
      · intro r hrF
        obtain ⟨hs, hv⟩ := I3 r hrF
        refine ⟨hs, ?_⟩
        rw [Finset.mem_insert]
        rintro (rfl | h)
        · rw [hclPp] at hrF
          exact Bool.true_eq_false.mp hrF
        · exact hv h
    · -- cluster branch: p seeds its full component as a void cluster
      push_neg at c2
      obtain ⟨hnA, hcap'⟩ := c2
      have hcapp : hasBlockAbove b p = true := hcap'
      have hccp : compCap b cutOff p :=
        ⟨p, mem_voidComponent_self b cutOff p hclPp, hcapp⟩
      obtain ⟨hJa, _, _⟩ := (I2 p hclPp).2 ⟨hnA, hccp⟩
      have hnoQ : ∀ q ∈ Q, q ∉ voidComponent b cutOff p := fun q hq hqc =>
        hnv (hJa.mpr ⟨q, hq, hqc⟩)
      have hdisj : ∀ q ∈ voidComponent b cutOff p, q ∉ st.visited := by
        intro q hqc hqv
        have hclq := voidComponent_mem_P b cutOff p q hqc
        have hqna : q ∉ findAccessibleCells b topRow := fun hqa =>
          hnA ((acc_iff_of_mem_component b topRow cutOff hcut p q hqc).mpr hqa)
        have hqcc : compCap b cutOff q :=
          (compCap_iff_of_mem_component b cutOff p q hqc).mp hccp
        obtain ⟨hKa, _, _⟩ := (I2 q hclq).2 ⟨hqna, hqcc⟩
        rcases hKa.mp hqv with ⟨q', hq', hq'c⟩
        refine hnoQ q' hq' ?_
        rw [← voidComponent_eq_of_mem b cutOff p q hqc]
        exact hq'c
      have hcl : identifyVoidCluster b st.visited p cutOff =
          voidComponent b cutOff p :=
        identify_eq_component b st.visited p cutOff hclPp hdisj
      have hc3 : ¬ ((¬ ∃ q ∈ identifyVoidCluster b st.visited p cutOff,
          hasBlockAbove b q = true) ∨
            identifyVoidCluster b st.visited p cutOff = ∅) := by
        rw [hcl]
        push_neg
        exact ⟨hccp,
          Finset.ne_empty_of_mem (mem_voidComponent_self b cutOff p hclPp)⟩
      have hstep : scanStep b (findAccessibleCells b topRow) cutOff st p =
          { visited := st.visited ∪ voidComponent b cutOff p
            stab := fun q =>
              if q ∈ voidComponent b cutOff p then
                voidPenalty (analyzeVoidCluster b (voidComponent b cutOff p))
              else st.stab q
            clusters := st.clusters ++
              [analyzeVoidCluster b (voidComponent b cutOff p)] } := by
        unfold scanStep
        rw [if_neg c1, if_neg (by
          push_neg
          exact ⟨hnA, hcap'⟩), if_neg hc3, hcl]
      rw [hstep]
      have hpen := voidPenalty_bounds (analyzeVoidCluster b (voidComponent b cutOff p))
      refine ⟨?_, ?_, ?_⟩
      · intro q hq
        rcases Finset.mem_union.mp hq with h | h
        · exact I1 q h
        · exact voidComponent_mem_P b cutOff p q h
      · intro r hr
        constructor
        · intro hAB
          obtain ⟨hIa, hIb⟩ := (I2 r hr).1 hAB
          have hrnc : r ∉ voidComponent b cutOff p := by
            intro hrc
            rcases hAB with hA | hncap
            · exact hnA ((acc_iff_of_mem_component b topRow cutOff hcut p r
                hrc).mpr hA)
            · exact hncap ((compCap_iff_of_mem_component b cutOff p r hrc).mp hccp)
          have hrnep : r ≠ p := by
            rintro rfl
            exact hrnc (mem_voidComponent_self b cutOff r hr)
          constructor
          · rw [Finset.mem_union, List.mem_append]
            constructor
            · rintro (hv | hc)
              · exact Or.inl (hIa.mp hv)
              · exact absurd hc hrnc
            · rintro (hQ | hp1)
              · exact Or.inl (hIa.mpr hQ)
              · exact absurd (List.mem_singleton.mp hp1) hrnep
          · simp only
            rw [if_neg hrnc]
            exact hIb
        · rintro ⟨hna, hcc⟩
          obtain ⟨hIa, hIb, hIc⟩ := (I2 r hr).2 ⟨hna, hcc⟩
          by_cases hrc : r ∈ voidComponent b cutOff p
          · have hprc : p ∈ voidComponent b cutOff r :=
              voidComponent_symm b cutOff p r hrc
            refine ⟨?_, ?_, ?_⟩
            · constructor
              · intro _
                exact ⟨p, List.mem_append_right _ (List.mem_singleton_self p), hprc⟩
              · intro _
                exact Finset.mem_union.mpr (Or.inr hrc)
            · intro _
              simp only
              rw [if_pos hrc]
              linarith [hpen.2]
            · intro hne
              exact absurd ⟨p, List.mem_append_right _ (List.mem_singleton_self p),
                hprc⟩ hne
          · have hpnc : p ∉ voidComponent b cutOff r := fun hpc =>
              hrc (voidComponent_symm b cutOff r p hpc)
            rw [exists_mem_append_singleton Q p _ hpnc]
            refine ⟨?_, ?_, ?_⟩
            · rw [Finset.mem_union]
              constructor
              · rintro (hv | hc)
                · exact hIa.mp hv
                · exact absurd hc hrc
              · intro hex
                exact Or.inl (hIa.mpr hex)
            · intro hex
              simp only
              rw [if_neg hrc]
              exact hIb hex
            · intro hne
              simp only
              rw [if_neg hrc]
              exact hIc hne
      · intro r hrF
        obtain ⟨hs, hv⟩ := I3 r hrF
        have hrnc : r ∉ voidComponent b cutOff p := by
          intro hrc
          rw [voidComponent_mem_P b cutOff p r hrc] at hrF
          exact Bool.true_eq_false.mp hrF
        refine ⟨?_, ?_⟩
        · simp only
          rw [if_neg hrnc]
          exact hs
        · rw [Finset.mem_union]
          rintro (h | h)
          · exact hv h
          · exact hrnc h

/-- Helper: the scan invariant holds before the first scan step on the
all-ones seed matrix. -/
theorem scanInv_nil (b : Board) (topRow cutOff : ℕ) :
    scanInv b topRow cutOff [] ⟨∅, fun _ => 1, []⟩ := by
  refine ⟨?_, ?_, ?_⟩
  · intro q hq
    exact absurd hq (Finset.not_mem_empty q)
  · intro p _
    refine ⟨fun _ => ⟨?_, rfl⟩, fun _ => ⟨?_, ?_, fun _ => rfl⟩⟩
    · simp
    · simp
    · rintro ⟨q, hq, _⟩
      exact absurd hq (List.not_mem_nil q)
  · intro p _
    exact ⟨rfl, Finset.not_mem_empty p⟩

/-- Helper: folding the scan step over the rest of the scan list preserves
the scan invariant. -/
theorem scan_fold_inv (b : Board) (topRow cutOff : ℕ) (hcut : cutOff ≤ b.length)
    (h01 : ∀ u v, u < BOARD_WIDTH → v < b.length →
      cellVal b u v = 0 ∨ cellVal b u v = 1)
    (R : List Pos) :
    ∀ (Q : List Pos) (st : DetectState),
      scanList topRow cutOff = Q ++ R →
      scanInv b topRow cutOff Q st →
      scanInv b topRow cutOff (Q ++ R)
        (R.foldl (scanStep b (findAccessibleCells b topRow) cutOff) st) := by
  induction R with
  | nil =>
    intro Q st _ hinv
    simpa using hinv
  | cons p R ih =>
    intro Q st hsplit hinv
    have hstep := scanStep_inv b topRow cutOff hcut h01 Q R p hsplit st hinv
    have h2 := ih (Q ++ [p])
      (scanStep b (findAccessibleCells b topRow) cutOff st p)
      (by rw [hsplit, List.append_assoc]; rfl) hstep
    rw [List.foldl_cons]
    have he : Q ++ [p] ++ R = Q ++ p :: R := by
      rw [List.append_assoc]; rfl
    rw [← he]
    exact h2

/-- Helper: void propagation only touches filled cells, so an empty cell
keeps its value. -/
theorem propagateVoidEffects_of_empty (b : Board) (S : Pos → ℚ)
    (info : VoidCluster) (cutOff : ℕ) (p : Pos) (hp : cellVal b p.1 p.2 ≠ 1) :
    propagateVoidEffects b S info cutOff p = S p := by
  unfold propagateVoidEffects
  split_ifs with h1 h2 h3 <;>
    first
      | rfl
      | (exfalso
         rw [Finset.mem_biUnion] at h1
         obtain ⟨c, _, hp'⟩ := h1
         rw [List.mem_toFinset, List.mem_filterMap] at hp'
         obtain ⟨d, _, hsome⟩ := hp'
         dsimp only at hsome
         split_ifs at hsome with hcond
         rw [← Option.some.inj hsome] at hp
         exact hp hcond.2.2.2.2)

/-- Helper: the propagation fold keeps an empty cell's value. -/
theorem propagate_fold_of_empty (b : Board) (cutOff : ℕ)
    (infos : List VoidCluster) (S : Pos → ℚ) (p : Pos)
    (hp : cellVal b p.1 p.2 ≠ 1) :
    infos.foldl (fun T info => propagateVoidEffects b T info cutOff) S p = S p := by
  induction infos generalizing S with
  | nil => rfl
  | cons info rest ih =>
    rw [List.foldl_cons, ih (propagateVoidEffects b S info cutOff)]
    exact propagateVoidEffects_of_empty b S info cutOff p hp

/-- Helper: one propagation step keeps a nonnegative cell nonnegative. -/
theorem propagateVoidEffects_nonneg (b : Board) (S : Pos → ℚ)
    (info : VoidCluster) (cutOff : ℕ) (p : Pos) (h : 0 ≤ S p) :
    0 ≤ propagateVoidEffects b S info cutOff p := by
  unfold propagateVoidEffects
  split_ifs <;> first | exact le_max_left 0 _ | exact h

/-- Helper: the propagation fold keeps a nonnegative cell nonnegative. -/
theorem propagate_fold_nonneg (b : Board) (cutOff : ℕ)
    (infos : List VoidCluster) (S : Pos → ℚ) (p : Pos) (h : 0 ≤ S p) :
    0 ≤ infos.foldl (fun T info => propagateVoidEffects b T info cutOff) S p := by
  induction infos generalizing S with
  | nil => exact h
  | cons info rest ih =>
    exact ih _ (propagateVoidEffects_nonneg b S info cutOff p h)

/-- C2: for a 0/1 board and a tower-zone cell of the scanned section
(rows `topRow ≤ y < cutOff`), the void-detection pass seeds a negative
stability value at the cell if and only if the cell is empty, is not
reachable by the 4-directional empty-cell flood from the top row's open
columns, and its connected empty component contains SOME cell with a filled
cell directly above (the cap condition holds for the component, not for the
cell itself as the specification states: an uncapped member of a capped
unreachable cluster is also marked negative). -/
theorem detectVoids_void_iff_component (b : Board) (topRow cutOff : ℕ)
    (hcut : cutOff ≤ b.length)
    (h01 : ∀ u < BOARD_WIDTH, ∀ v < b.length,
      cellVal b u v = 0 ∨ cellVal b u v = 1)
    (p : Pos) (hy1 : topRow ≤ p.2) (hy2 : p.2 < cutOff)
    (hx1 : GUTTER_WIDTH ≤ p.1) (hx2 : p.1 < GUTTER_WIDTH + TOWER_WIDTH) :
    (detectVoids b topRow (fun _ => 1) cutOff).1 p < 0 ↔
      cellVal b p.1 p.2 ≠ 1 ∧ p ∉ findAccessibleCells b topRow ∧
        compCap b cutOff p := by
  set st := (scanList topRow cutOff).foldl
    (scanStep b (findAccessibleCells b topRow) cutOff)
    (⟨∅, fun _ => 1, []⟩ : DetectState) with hstdef
  have hinv : scanInv b topRow cutOff (scanList topRow cutOff) st := by
    have h := scan_fold_inv b topRow cutOff hcut
      (fun u v hu hv => h01 u hu v hv) (scanList topRow cutOff) []
      ⟨∅, fun _ => 1, []⟩ rfl (scanInv_nil b topRow cutOff)
    rw [hstdef]
    simpa using h
  obtain ⟨I1, I2, I3⟩ := hinv
  have hD : (detectVoids b topRow (fun _ => 1) cutOff).1 =
      st.clusters.foldl (fun S info => propagateVoidEffects b S info cutOff)
        st.stab := rfl
  rw [hD]
  by_cases hfill : cellVal b p.1 p.2 = 1
  · have hclF : clP b cutOff p = false := by
      rw [Bool.eq_false_iff]
      intro h
      rw [clP_eq_true] at h
      exact h.2.2.2 hfill
    have hstab1 := (I3 p hclF).1
    have hnn := propagate_fold_nonneg b cutOff st.clusters st.stab p
      (by rw [hstab1]; norm_num)
    constructor
    · intro hneg
      linarith
    · rintro ⟨hne, _, _⟩
      exact absurd hfill hne
  · have hclT : clP b cutOff p = true := by
      rw [clP_eq_true]
      exact ⟨hx1, hx2, hy2, hfill⟩
    rw [propagate_fold_of_empty b cutOff st.clusters st.stab p hfill]
    by_cases hAB : p ∈ findAccessibleCells b topRow ∨ ¬ compCap b cutOff p
    · rw [((I2 p hclT).1 hAB).2]
      constructor
      · intro h
        exact absurd h (by norm_num)
      · rintro ⟨_, hna, hcc⟩
        rcases hAB with hA | hnc
        · exact absurd hA hna
        · exact absurd hcc hnc
    · push_neg at hAB
      obtain ⟨hna, hcc⟩ := hAB
      have hpscan : p ∈ scanList topRow cutOff :=
        (mem_scanList topRow cutOff p).mpr ⟨hy1, hy2, hx1, hx2⟩
      have hex : ∃ q ∈ scanList topRow cutOff, q ∈ voidComponent b cutOff p :=
        ⟨p, hpscan, mem_voidComponent_self b cutOff p hclT⟩
      have hneg := ((I2 p hclT).2 ⟨hna, hcc⟩).2.1 hex
      exact ⟨fun _ => ⟨hfill, hna, hcc⟩, fun _ => hneg⟩

/-- Witness for C2: on the pocket board (topmost occupied row 2, cutoff 6)
the characterization holds at the capped pocket cell (5, 3). -/
theorem detectVoids_void_iff_component_witness :
    (6 ≤ bPocket.length ∧
      (∀ u < BOARD_WIDTH, ∀ v < bPocket.length,
        cellVal bPocket u v = 0 ∨ cellVal bPocket u v = 1) ∧
      2 ≤ 3 ∧ 3 < 6 ∧ GUTTER_WIDTH ≤ 5 ∧ 5 < GUTTER_WIDTH + TOWER_WIDTH) ∧
    ((detectVoids bPocket 2 (fun _ => 1) 6).1 (5, 3) < 0 ↔
      cellVal bPocket 5 3 ≠ 1 ∧ (5, 3) ∉ findAccessibleCells bPocket 2 ∧
        compCap bPocket 6 (5, 3)) :=
  ⟨⟨by decide, by decide, by decide, by decide, by decide, by decide⟩,
    detectVoids_void_iff_component bPocket 2 6 (by decide) (by decide)
      (5, 3) (by decide) (by decide) (by decide) (by decide)⟩

/-- Counterexample for C2 as stated: on the pocket board, cell (5, 4) is
empty and has NO filled cell directly above it (the cell above is the empty
pocket cell (5, 3)), yet the void-detection pass run by the pipeline
(topmost occupied row 2, cutoff `length - HISTORY_ROWS = 6`) assigns it a
negative stability value, because its cluster-mate (5, 3) is capped. -/
theorem detectVoids_capless_cell_counterexample :
    cellVal bPocket 5 4 = 0 ∧ hasBlockAbove bPocket (5, 4) = false ∧
    findTopRow bPocket = 2 ∧ bPocket.length - HISTORY_ROWS = 6 ∧
    (detectVoids bPocket 2 (fun _ => 1) 6).1 (5, 4) < 0 := by
  decide

end QuickStack
